import Mathlib

/-!
Verification development for the Process & Data Lifecycle subsystem of a
game-server hosting application (single Rust source file
`apps/desktop/src-tauri/src/lib.rs`).

The Rust code is shallowly embedded:

* `String` / `&str` values are embedded as `List Char`; file contents are
  `List Char` as well, so "byte-identical" claims become list equality.
* Rust `u8` / `u16` / `u64` values are embedded as `Nat` (all operations in
  the embedded fragment stay far from wrap-around; saturating `as` casts are
  modelled explicitly where they occur).
* The `f32` arithmetic in the sleeper-threshold conversion is embedded
  exactly: an `f32` value is represented as a dyadic rational `m * 2 ^ e`
  with a 24-bit mantissa, and each Rust operation (`/`, `*`) is one
  round-to-nearest-even step, which is exactly IEEE-754 binary32 semantics
  for the in-range, normal values that occur here.
* Fallible functions return `Except String`, mirroring `Result<_, String>`.
* Filesystem and process effects are made explicit: functions receive the
  relevant file contents / process-manager state and return the new
  contents / state together with the list of write events they perform.
-/

/-! ## Basic string model (Rust `&str` as `List Char`) -/

/-- Rust `char::is_whitespace` (Unicode `White_Space`), restricted to the
character set that can appear here; matches the Unicode property. -/
def isRustWhitespace (c : Char) : Bool :=
  c = ' ' || c = '\t' || c = '\n' || c = '\r' ||
  c = '\x0b' || c = '\x0c' || c = '\u0085' || c = ' ' ||
  c = ' ' ||
  (' ' ≤ c && c ≤ ' ') ||
  c = ' ' || c = ' ' || c = ' ' || c = ' ' ||
  c = '　'

/-- Rust `str::trim`: drop leading and trailing whitespace. -/
def rustTrim (s : List Char) : List Char :=
  ((s.dropWhile isRustWhitespace).reverse.dropWhile isRustWhitespace).reverse

/-- Split a character list at every occurrence of `c` (keeping empty
segments), the helper underlying the Rust `str::lines` model. -/
def splitOnChar (c : Char) : List Char → List (List Char)
  | [] => [[]]
  | ch :: rest =>
    match splitOnChar c rest with
    | [] => if ch = c then [[], []] else [[ch]]
    | seg :: segs => if ch = c then [] :: seg :: segs else (ch :: seg) :: segs

/-- Strip one trailing `'\r'`, as Rust `str::lines` does on each line. -/
def stripTrailingCR (s : List Char) : List Char :=
  match s.getLast? with
  | some '\r' => s.dropLast
  | _ => s

/-- Rust `str::lines`: split at `'\n'` (a trailing newline does not produce a
final empty line), then strip one trailing `'\r'` from each line. -/
def rustLines (s : List Char) : List (List Char) :=
  if s = [] then []
  else
    let segs := splitOnChar '\n' s
    let segs := if s.getLast? = some '\n' then segs.dropLast else segs
    segs.map stripTrailingCR

/-- Rust `lines.join("\n")` followed by `format!("{}\n", _)`: interleave the
lines with newlines and append one final newline. -/
def joinLinesNl : List (List Char) → List Char
  | [] => ['\n']
  | [l] => l ++ ['\n']
  | l :: rest => l ++ '\n' :: joinLinesNl rest

/-- The ASCII uppercase/lowercase pairs. -/
def asciiLowerPairs : List (Char × Char) :=
  [('A', 'a'), ('B', 'b'), ('C', 'c'), ('D', 'd'), ('E', 'e'), ('F', 'f'),
   ('G', 'g'), ('H', 'h'), ('I', 'i'), ('J', 'j'), ('K', 'k'), ('L', 'l'),
   ('M', 'm'), ('N', 'n'), ('O', 'o'), ('P', 'p'), ('Q', 'q'), ('R', 'r'),
   ('S', 's'), ('T', 't'), ('U', 'u'), ('V', 'v'), ('W', 'w'), ('X', 'x'),
   ('Y', 'y'), ('Z', 'z')]

/-- Rust `char::to_lowercase` restricted to ASCII (every string this code
lowercases is ASCII configuration text; non-ASCII characters pass through
unchanged in the model). -/
def charToLower (c : Char) : Char :=
  match List.lookup c asciiLowerPairs with
  | some l => l
  | none => c

/-- Rust `str::to_lowercase` on the embedded strings. -/
def strToLower (s : List Char) : List Char := s.map charToLower

/-- Decimal digits of a natural number (little-endian helper, fuelled). -/
def natDigitsAux : Nat → Nat → List Char
  | 0, _ => []
  | _ + 1, 0 => []
  | fuel + 1, n => Nat.digitChar (n % 10) :: natDigitsAux fuel (n / 10)

/-- Rust `u8`/`u16`/`u64` `Display`: decimal representation. -/
def natToStr (n : Nat) : List Char :=
  if n = 0 then ['0'] else (natDigitsAux n n).reverse

/-- Rust `bool` `Display`: `true` / `false`. -/
def boolToStr (b : Bool) : List Char :=
  if b then ['t', 'r', 'u', 'e'] else ['f', 'a', 'l', 's', 'e']

/-! ## Exact model of the `f32` arithmetic in the sleeper conversion

A positive finite `f32` value is represented as a pair `(m, tb) : Nat × Nat`
meaning `m * 2 ^ (tb - 64)` (the exponent carries a bias of 64 so that the
whole computation stays in `Nat`; every exponent that occurs here is well
above `-64`).  After each Rust arithmetic operation the hardware rounds the
exact result to 24 significand bits, to nearest, ties to even; `flDivF32`
and `flScaledF32` perform exactly that rounding, so for the in-range normal
values occurring in the two conversion functions this is the exact
IEEE-754 binary32 semantics of the source.

`seqNat` is a strictness combinator: it forces a `Nat` to a literal before
substituting it, keeping call-by-name kernel reduction linear.  It is
definitionally the identity (`seqNat_apply`). -/

/-- Force a `Nat` to a literal, then continue.  Semantically `f n`. -/
def seqNat {α : Sort _} (n : Nat) (f : Nat → α) : α :=
  match n with
  | 0 => f 0
  | k + 1 => f (k + 1)

theorem seqNat_apply {α : Sort _} (n : Nat) (f : Nat → α) : seqNat n f = f n := by
  cases n <;> rfl

/-- Rust `Nat.log2` with explicit structural fuel (64 bits covers every number
occurring here), so that kernel reduction is predictable. -/
def log2Fuel : Nat → Nat → Nat
  | 0, _ => 0
  | fuel + 1, n => seqNat n fun n => if n ≥ 2 then log2Fuel fuel (n / 2) + 1 else 0

/-- Floor of the base-2 logarithm (for positive input). -/
def natLog2 (n : Nat) : Nat := log2Fuel 64 n

/-- Round `num / den` to an integer, to nearest, ties to even. -/
def roundHalfEven (num den : Nat) : Nat :=
  seqNat (num / den) fun q =>
  seqNat (num % den) fun r =>
  if 2 * r < den then q
  else if den < 2 * r then q + 1
  else if q % 2 = 0 then q else q + 1

/-- Is `a / b ≥ 2 ^ (eb - 64)` (biased exponent `eb`)? -/
def ratGePow2 (a b eb : Nat) : Bool := b * 2 ^ eb ≤ a * 2 ^ 64

/-- The nearest `f32` to the exact quotient `a / b` (`a, b ≥ 1`):
round-to-nearest-even at 24 significand bits, result `(m, tb)` with value
`m * 2 ^ (tb - 64)`. -/
def flDivF32 (a b : Nat) : Nat × Nat :=
  seqNat (natLog2 a) fun la =>
  seqNat (natLog2 b) fun lb =>
  seqNat (64 + la - lb) fun e0b =>
  seqNat (if ratGePow2 a b e0b then e0b else e0b - 1) fun eb =>
  seqNat (eb - 23) fun tb =>
  seqNat (roundHalfEven (a * 2 ^ 64) (b * 2 ^ tb)) fun m =>
  (m, tb)

/-- The nearest `f32` to `a * 2 ^ (sb - 64)` (`a ≥ 1`): round-to-nearest-even
at 24 significand bits.  Used for the products `x * 100.0` and `x * max`,
whose exact value is an integer times a power of two. -/
def flScaledF32 (a sb : Nat) : Nat × Nat :=
  seqNat (natLog2 a) fun la =>
  seqNat (a * 2 ^ (23 - la)) fun m0 =>
  if la ≤ 23 then (m0, sb + la - 23)
  else seqNat (roundHalfEven a (2 ^ (la - 23))) fun m => (m, sb + la - 23)

/-- Rust `f32::ceil` on the dyadic value `m * 2 ^ (tb - 64)` (exact in IEEE-754). -/
def ceilPow2 (m tb : Nat) : Nat :=
  if 64 ≤ tb then m * 2 ^ (tb - 64)
  else (m + 2 ^ (64 - tb) - 1) / 2 ^ (64 - tb)

/-- Rust `fn sleepers_to_percentage(required: u8, max_players: u16) -> u8`
(lib.rs:4172).  `(required.max(1) as f32 / max_players as f32 * 100.0)
.ceil().clamp(1.0, 100.0) as u8`: both integer-to-`f32` conversions are
exact (the arguments are below 2^24), the division and the multiplication
each round to nearest even, `ceil` and `clamp` are exact, and the final
`as u8` cast of a value already clamped into `[1, 100]` is the identity. -/
def sleepers_to_percentage (required max_players : Nat) : Nat :=
  if max_players = 0 then 100
  else
    seqNat (max required 1) fun r =>
    match flDivF32 r max_players with
    | (m1, t1) =>
      match flScaledF32 (m1 * 100) t1 with
      | (m2, t2) =>
        seqNat (ceilPow2 m2 t2) fun percent =>
        min 100 (max 1 percent)

/-- Rust `fn percentage_to_sleepers(percent: u8, max_players: u16) -> u8`
(lib.rs:4182).  `(percent.max(1) as f32 / 100.0 * max_players as f32)
.ceil().max(1.0) as u8`: the final `as u8` cast saturates at 255. -/
def percentage_to_sleepers (percent max_players : Nat) : Nat :=
  if max_players = 0 then 1
  else
    seqNat (max percent 1) fun p =>
    match flDivF32 p 100 with
    | (m1, t1) =>
      match flScaledF32 (m1 * max_players) t1 with
      | (m2, t2) =>
        seqNat (ceilPow2 m2 t2) fun required =>
        min 255 (max 1 required)

/-- The settings-to-properties round trip of claim C3. -/
def sleeperRoundTrip (n max_players : Nat) : Nat :=
  seqNat (sleepers_to_percentage n max_players) fun p =>
  percentage_to_sleepers p max_players

/-- Bounded-error check for one pair: the round trip lands within ±1. -/
def sleeperRtOk (n m : Nat) : Bool :=
  seqNat (sleeperRoundTrip n m) fun r => r ≤ n + 1 && n ≤ r + 1

/-- Check `sleeperRtOk n m` for `n = 1, …, k`. -/
def sleeperRtRow (m : Nat) : Nat → Bool
  | 0 => true
  | n + 1 => sleeperRtOk (n + 1) m && sleeperRtRow m n

/-- Check the whole triangle `1 ≤ n ≤ m ≤ mMax`. -/
def sleeperRtSquare : Nat → Bool
  | 0 => true
  | m + 1 => sleeperRtRow (m + 1) (m + 1) && sleeperRtSquare m

theorem sleeperRtOk_spec {n m : Nat} (h : sleeperRtOk n m = true) :
    sleeperRoundTrip n m ≤ n + 1 ∧ n ≤ sleeperRoundTrip n m + 1 := by
  unfold sleeperRtOk at h
  rw [seqNat_apply] at h
  simpa [Bool.and_eq_true, decide_eq_true_iff] using h

theorem sleeperRtRow_spec {m k : Nat} (h : sleeperRtRow m k = true) :
    ∀ n, 1 ≤ n → n ≤ k → sleeperRtOk n m = true := by
  induction k with
  | zero => intro n h1 h2; omega
  | succ k ih =>
    unfold sleeperRtRow at h
    rw [Bool.and_eq_true] at h
    intro n h1 h2
    rcases Nat.lt_or_ge n (k + 1) with hlt | hge
    · exact ih h.2 n h1 (by omega)
    · have : n = k + 1 := by omega
      subst this; exact h.1

theorem sleeperRtSquare_spec {M : Nat} (h : sleeperRtSquare M = true) :
    ∀ m n, 1 ≤ n → n ≤ m → m ≤ M → sleeperRtOk n m = true := by
  induction M with
  | zero => intro m n h1 h2 h3; omega
  | succ M ih =>
    unfold sleeperRtSquare at h
    rw [Bool.and_eq_true] at h
    intro m n h1 h2 h3
    rcases Nat.lt_or_ge m (M + 1) with hlt | hge
    · exact ih h.2 m n h1 h2 (by omega)
    · have : m = M + 1 := by omega
      subst this
      exact sleeperRtRow_spec h.1 n h1 h2

/-- Claim C3, counterexample.  The claimed bounded-error round trip
`percentage_to_sleepers (sleepers_to_percentage n max) max = n ± 1` fails at
`n = 1`, `max = 1000`: `sleepers_to_percentage 1 1000 = 1` (ceil of 0.1,
clamped up to 1) and `percentage_to_sleepers 1 1000 = 10` (ceil of 1% of
1000), so the round trip returns 10, nine away from the original 1. -/
theorem C3_roundtrip_counterexample :
    sleeperRoundTrip 1 1000 = 10 ∧ 1 + 1 < sleeperRoundTrip 1 1000 := by
  constructor
  · decide
  · decide

set_option maxRecDepth 100000 in
set_option maxHeartbeats 4000000 in
/-- Claim C3, amended.  The ±1-bounded round trip
`percentage_to_sleepers (sleepers_to_percentage n max) max ∈ {n - 1, n, n + 1}`
holds for all `1 ≤ n ≤ max` only when `max ≤ 100` (one player is at least one
percentage point, so the percentage cannot under-resolve the player count).
For `max > 100` the round trip can overshoot by roughly `max / 100`, as the
counterexample shows. -/
theorem C3_roundtrip_amended (n m : Nat) (h1 : 1 ≤ n) (h2 : n ≤ m) (h3 : m ≤ 100) :
    sleeperRoundTrip n m ≤ n + 1 ∧ n ≤ sleeperRoundTrip n m + 1 := by
  have hsq : sleeperRtSquare 100 = true := by decide
  exact sleeperRtOk_spec (sleeperRtSquare_spec hsq m n h1 h2 h3)

/-- Witness for `C3_roundtrip_amended` at `n = 3`, `max = 10`. -/
theorem C3_roundtrip_amended_witness :
    sleeperRoundTrip 3 10 ≤ 3 + 1 ∧ 3 ≤ sleeperRoundTrip 3 10 + 1 :=
  C3_roundtrip_amended 3 10 (by decide) (by decide) (by decide)

/-! ## Process Manager (lib.rs:46-53, 432-589)

The manager owns the single process slot.  `Child`, `ChildStdin` and the
`Instant` start timestamp are opaque at this level; they are embedded as
`Option Nat` handles (only presence/absence and the process id matter to the
claims).  Server names/ids are `List Char`.  Environment inputs that the
Rust code obtains from the OS (file existence, spawn outcome, pipes) are
passed in explicitly. -/

inductive ServerStatus
  | STOPPED
  | STARTING
  | RUNNING
  | ERROR
deriving DecidableEq, Repr

inductive LauncherConfig
  | Jar (jar_path : List Char)
  | Forge (args_file : List Char)
deriving DecidableEq, Repr

structure ServerConfig where
  name : List Char
  version : List Char
  ram_gb : Nat
  online_mode : Bool
  port : Nat
  server_dir : List Char
  launcher : LauncherConfig
  linked : Bool
deriving DecidableEq, Repr

structure ProcessManager where
  status : ServerStatus
  child : Option Nat
  stdin : Option Nat
  pid : Option Nat
  started_at : Option Nat
  active_server_id : Option (List Char)
deriving DecidableEq, Repr

/-- Rust `ProcessManager::new` (lib.rs:442). -/
def ProcessManager.new : ProcessManager :=
  { status := .STOPPED, child := none, stdin := none, pid := none,
    started_at := none, active_server_id := none }

/-- The pipes and id of a successfully spawned child process.  With
`Stdio::piped()` the three pipes are present, but the Rust code still
handles their absence (`ok_or("Failed to capture …")`), so the model keeps
them optional. -/
structure SpawnedChild where
  id : Nat
  stdout_pipe : Option Nat
  stderr_pipe : Option Nat
  stdin_pipe : Option Nat
deriving DecidableEq, Repr

/-- Outcome of `command.spawn()`: an error (`not_found` marks
`ErrorKind::NotFound`) or a child. -/
inductive SpawnResult
  | err (not_found : Bool) (msg : String)
  | ok (child : SpawnedChild)
deriving DecidableEq, Repr

/-- Environment consumed by one `ProcessManager::start` call: existence of
the jar / args file, the result of `write_user_jvm_args`, the current
instant, and the spawn outcome. -/
structure StartEnv where
  jar_exists : Bool
  args_exists : Bool
  write_args : Except String Unit
  now : Nat
  spawn : SpawnResult

/-- Rust `ProcessManager::start` (lib.rs:461-541).  Event emission
(`emit_status`, `emit_server_event`) and the two `spawn_output_thread`
calls have no effect on the manager state here; the output threads'
mutation is modelled separately as `spawn_output_thread_step`. -/
def ProcessManager.start (pm : ProcessManager) (env : StartEnv)
    (config : ServerConfig) : ProcessManager × Except String Unit :=
  if pm.status = .RUNNING ∨ pm.status = .STARTING then (pm, .ok ())
  else
    let launch : Except String Unit :=
      match config.launcher with
      | .Jar _ =>
        if env.jar_exists then .ok ()
        else .error "Server jar is missing. Recreate the server or redownload files."
      | .Forge _ =>
        if env.args_exists then env.write_args
        else .error "Forge args file is missing. Reinstall the server."
    match launch with
    | .error e => (pm, .error e)
    | .ok _ =>
      let pm1 := { pm with status := .STARTING, started_at := some env.now,
                           active_server_id := some config.name }
      match env.spawn with
      | .err not_found msg =>
        ({ pm1 with status := .ERROR },
         .error (if not_found then "Java was not found. Install Java 17+ and try again." else msg))
      | .ok child =>
        match child.stdout_pipe with
        | none => (pm1, .error "Failed to capture server stdout")
        | some _ =>
          match child.stderr_pipe with
          | none => (pm1, .error "Failed to capture server stderr")
          | some _ =>
            ({ pm1 with pid := some child.id, stdin := child.stdin_pipe,
                        child := some child.id }, .ok ())

/-- Rust `ProcessManager::stop` (lib.rs:543-582).  The graceful-shutdown write,
the 200 ms/10 s poll-then-kill loop and the emissions do not change the
manager fields; on every exit from the loop the code clears all handle
fields and sets `STOPPED`.  With no child, only `status` and
`active_server_id` are written. -/
def ProcessManager.stop (pm : ProcessManager) : ProcessManager × Except String Unit :=
  if pm.child = none then
    ({ pm with status := .STOPPED, active_server_id := none }, .ok ())
  else
    ({ status := .STOPPED, child := none, stdin := none, pid := none,
       started_at := none, active_server_id := none }, .ok ())

/-- Rust `ProcessManager::send_command` (lib.rs:584-588); `write_ok` is the
outcome of `writeln!`. -/
def ProcessManager.send_command (pm : ProcessManager) (write_ok : Bool) :
    ProcessManager × Except String Unit :=
  match pm.stdin with
  | none => (pm, .error "Server is not running")
  | some _ => (pm, if write_ok then .ok () else .error "write failed")

/-- One pass of the `spawn_exit_watcher` loop body (lib.rs:2107-2125):
`exit_status = some success` models `try_wait` returning `Ok(Some(_))`. -/
def spawn_exit_watcher_step (exit_status : Option Bool) (pm : ProcessManager) :
    ProcessManager :=
  match pm.child with
  | some _ =>
    match exit_status with
    | some success =>
      { pm with child := none, stdin := none, pid := none, active_server_id := none,
                status := if success then .STOPPED else .ERROR }
    | none => pm
  | none => pm

/-- The state mutation of one console line in `spawn_output_thread`
(lib.rs:2153-2159): a stdout line containing the ready marker promotes
`STARTING` to `RUNNING`. -/
def spawn_output_thread_step (is_stdout line_has_done : Bool) (pm : ProcessManager) :
    ProcessManager :=
  if is_stdout && line_has_done && pm.status = .STARTING then
    { pm with status := .RUNNING }
  else pm

/-! ## Command layer (lib.rs:680-785, 2625-2639, 2828-2838)

External commands check ownership of the process slot through
`active_server_id` before delegating to the manager. -/

/-- Rust `char::is_ascii_alphanumeric`. -/
def isAsciiAlphanumeric (c : Char) : Bool :=
  ('0' ≤ c && c ≤ '9') || ('a' ≤ c && c ≤ 'z') || ('A' ≤ c && c ≤ 'Z')

/-- Rust `fn sanitize_name` (lib.rs:2625). -/
def sanitize_name (name : List Char) : List Char :=
  let cleaned := name.foldr
    (fun ch acc =>
      if isAsciiAlphanumeric ch || ch = '-' || ch = '_' then ch :: acc
      else if isRustWhitespace ch then '_' :: acc
      else acc) []
  if cleaned = [] then "minecraft_server".data else cleaned

/-- Rust `fn server_matches_id` (lib.rs:2828). -/
def server_matches_id (server : ServerConfig) (server_id : List Char) : Bool :=
  server.name == server_id || sanitize_name server.name == sanitize_name server_id

/-- Rust `fn get_server_by_id` (lib.rs:2832). -/
def get_server_by_id (servers : List ServerConfig) (server_id : List Char) :
    Option ServerConfig :=
  servers.find? (fun server => server_matches_id server server_id)

/-- The ownership check `manager.active_server_id.as_deref()
.is_some_and(|active| active != server_id)` used by every command. -/
def active_id_conflicts (pm : ProcessManager) (server_id : List Char) : Bool :=
  match pm.active_server_id with
  | some active => active != server_id
  | none => false

/-- Environment consumed by one `start_server` command: the registry load,
the settings load, the properties rewrite, the Java lookup, and the
`ProcessManager::start` environment. -/
structure StartServerEnv where
  registry : Except String (List ServerConfig)
  load_settings : Except String Unit
  apply_props : Except String Unit
  java_exe : Except String (List Char)
  start_env : StartEnv

/-- Rust `#[tauri::command] fn start_server` (lib.rs:680-702).  The trailing
`spawn_exit_watcher` spawn is modelled by the separate
`spawn_exit_watcher_step`. -/
def start_server (server_id : List Char) (env : StartServerEnv)
    (pm : ProcessManager) : ProcessManager × Except String Unit :=
  match env.registry with
  | .error e => (pm, .error e)
  | .ok servers =>
    match get_server_by_id servers server_id with
    | none => (pm, .error "Server not found")
    | some config =>
      match env.load_settings with
      | .error e => (pm, .error e)
      | .ok _ =>
        match env.apply_props with
        | .error e => (pm, .error e)
        | .ok _ =>
          if active_id_conflicts pm server_id then
            (pm, .error "Another server is currently running")
          else
            match env.java_exe with
            | .error e => (pm, .error e)
            | .ok _ => pm.start env.start_env config

/-- Rust `#[tauri::command] fn stop_server` (lib.rs:705-718). -/
def stop_server (server_id : List Char) (pm : ProcessManager) :
    ProcessManager × Except String Unit :=
  if active_id_conflicts pm server_id then
    (pm, .error "Another server is currently running")
  else pm.stop

/-- The two sequential status-promotion `if`s of `get_status`
(lib.rs:772-781), entered when the pid is present and the OS reports the
process alive: `STOPPED`/`ERROR` is promoted to `RUNNING` outright, and
`STARTING` is promoted to `RUNNING` once more than 8 s have elapsed. -/
def get_status_promote (elapsed_over_8s : Bool) (pm : ProcessManager) :
    ProcessManager × Except String ServerStatus :=
  if pm.status = .STOPPED ∨ pm.status = .ERROR then
    ({ pm with status := .RUNNING }, .ok .RUNNING)
  else if pm.status = .STARTING ∧ pm.started_at.isSome ∧ elapsed_over_8s then
    ({ pm with status := .RUNNING }, .ok .RUNNING)
  else (pm, .ok pm.status)

/-- Rust `#[tauri::command] fn get_status` (lib.rs:756-785).  `alive` models
`system.process(pid).is_some()` and `elapsed_over_8s` models
`started_at.elapsed() > 8s`. -/
def get_status (server_id : List Char) (alive elapsed_over_8s : Bool)
    (pm : ProcessManager) : ProcessManager × Except String ServerStatus :=
  if active_id_conflicts pm server_id then (pm, .ok .STOPPED)
  else
    match pm.pid with
    | none => (pm, .ok pm.status)
    | some _ =>
      if alive then get_status_promote elapsed_over_8s pm
      else (pm, .ok pm.status)

/-- Rust `fn is_server_running` (lib.rs:4192). -/
def is_server_running (pm : ProcessManager) : Bool :=
  pm.status = .RUNNING || pm.status = .STARTING

/-! ## Reachable manager states and the handle/status invariant -/

/-- Manager states reachable from `ProcessManager::new` through the
operations that mutate the process slot: `start`, `stop`, the exit
watcher, the stdout ready watcher, and `get_status` (which can promote the
status).  `start_server`/`stop_server`/`send_command` mutate the manager
only through these. -/
inductive PMReachable : ProcessManager → Prop
  | init : PMReachable ProcessManager.new
  | start (pm : ProcessManager) (env : StartEnv) (config : ServerConfig) :
      PMReachable pm → PMReachable (pm.start env config).1
  | stop (pm : ProcessManager) : PMReachable pm → PMReachable pm.stop.1
  | watcher (pm : ProcessManager) (exit_status : Option Bool) :
      PMReachable pm → PMReachable (spawn_exit_watcher_step exit_status pm)
  | output (pm : ProcessManager) (is_stdout line_has_done : Bool) :
      PMReachable pm → PMReachable (spawn_output_thread_step is_stdout line_has_done pm)
  | status (pm : ProcessManager) (server_id : List Char) (alive elapsed : Bool) :
      PMReachable pm → PMReachable (get_status server_id alive elapsed pm).1

/-- The invariant that actually holds of every reachable manager state:
the process-handle triple (`child`, `stdin`, `pid`) is only ever populated
in `STARTING`/`RUNNING`, and `STARTING`/`RUNNING` always carry a start
timestamp and a bound server id.  (`started_at` and `active_server_id`
themselves can survive into `ERROR`/`STOPPED`, see the C1/C7
counterexamples.) -/
def PMInv (pm : ProcessManager) : Prop :=
  (pm.stdin.isSome → pm.child.isSome) ∧
  (pm.pid.isSome → pm.child.isSome) ∧
  (pm.child.isSome → pm.status = .STARTING ∨ pm.status = .RUNNING) ∧
  ((pm.status = .STARTING ∨ pm.status = .RUNNING) →
    pm.started_at.isSome ∧ pm.active_server_id.isSome)

theorem pmInv_new : PMInv ProcessManager.new := by
  simp [PMInv, ProcessManager.new]

theorem pmInv_start (pm : ProcessManager) (env : StartEnv) (config : ServerConfig)
    (h : PMInv pm) : PMInv (pm.start env config).1 := by
  obtain ⟨h1, h2, h3, h4⟩ := h
  unfold ProcessManager.start
  split
  · exact ⟨h1, h2, h3, h4⟩
  · next hns =>
    rcases hlaunch : (match config.launcher with
      | .Jar _ => if env.jar_exists then Except.ok ()
          else Except.error "Server jar is missing. Recreate the server or redownload files."
      | .Forge _ => if env.args_exists then env.write_args
          else Except.error "Forge args file is missing. Reinstall the server.") with e | u
    · simp only [hlaunch]
      exact ⟨h1, h2, h3, h4⟩
    · simp only [hlaunch]
      rcases env.spawn with ⟨nf, msg⟩ | child
      · exact ⟨h1, h2, fun hc => absurd (h3 hc).symm hns, by simp⟩
      · rcases hout : child.stdout_pipe with _ | o
        · simp only [hout]
          exact ⟨h1, h2, fun _ => Or.inl rfl, by simp⟩
        · rcases herr : child.stderr_pipe with _ | e
          · simp only [hout, herr]
            exact ⟨h1, h2, fun _ => Or.inl rfl, by simp⟩
          · simp only [hout, herr]
            exact ⟨fun _ => rfl, fun _ => rfl, fun _ => Or.inl rfl, by simp⟩

theorem pmInv_stop (pm : ProcessManager) (h : PMInv pm) : PMInv pm.stop.1 := by
  obtain ⟨h1, h2, h3, _⟩ := h
  unfold ProcessManager.stop
  split
  · next hc =>
    refine ⟨fun hs => h1 hs, fun hp => h2 hp, fun hc2 => ?_,
      fun hst => absurd hst (by rintro (h | h) <;> exact ServerStatus.noConfusion h)⟩
    rw [hc] at hc2; simp at hc2
  · refine ⟨by simp, by simp, by simp,
      fun hst => absurd hst (by rintro (h | h) <;> exact ServerStatus.noConfusion h)⟩

theorem pmInv_watcher (pm : ProcessManager) (exit_status : Option Bool)
    (h : PMInv pm) : PMInv (spawn_exit_watcher_step exit_status pm) := by
  obtain ⟨h1, h2, h3, h4⟩ := h
  unfold spawn_exit_watcher_step
  rcases hc : pm.child with _ | c <;> simp only [hc]
  · exact ⟨h1, h2, h3, h4⟩
  · rcases exit_status with _ | success
    · exact ⟨h1, h2, h3, h4⟩
    · cases success <;>
        exact ⟨by simp, by simp, by simp,
          fun hst => absurd hst (by rintro (h | h) <;> exact ServerStatus.noConfusion h)⟩

theorem pmInv_output (pm : ProcessManager) (is_stdout line_has_done : Bool)
    (h : PMInv pm) : PMInv (spawn_output_thread_step is_stdout line_has_done pm) := by
  obtain ⟨h1, h2, h3, h4⟩ := h
  unfold spawn_output_thread_step
  split
  · next hcond =>
    simp only [Bool.and_eq_true, decide_eq_true_iff] at hcond
    refine ⟨h1, h2, fun _ => Or.inr rfl, fun _ => h4 (Or.inl hcond.2)⟩
  · exact ⟨h1, h2, h3, h4⟩

theorem pmInv_get_status (pm : ProcessManager) (server_id : List Char)
    (alive elapsed : Bool) (h : PMInv pm) :
    PMInv (get_status server_id alive elapsed pm).1 := by
  obtain ⟨h1, h2, h3, h4⟩ := h
  unfold get_status
  split
  · exact ⟨h1, h2, h3, h4⟩
  · rcases hp : pm.pid with _ | p <;> simp only [hp]
    · exact ⟨h1, h2, h3, h4⟩
    · rcases halive : alive with _ | _ <;> simp only [Bool.false_eq_true, if_false, if_true]
      · exact ⟨h1, h2, h3, h4⟩
      · -- pid present: by the invariant the status is already STARTING/RUNNING.
        have hchild : pm.child.isSome := h2 (by simp [hp])
        have hstat := h3 hchild
        unfold get_status_promote
        have hnotse : ¬(pm.status = .STOPPED ∨ pm.status = .ERROR) := by
          rcases hstat with hs | hs <;> simp [hs]
        rw [if_neg hnotse]
        split
        · exact ⟨h1, h2, fun _ => Or.inr rfl, fun _ => h4 hstat⟩
        · exact ⟨h1, h2, h3, h4⟩

/-- Every reachable manager state satisfies `PMInv`. -/
theorem pmReachable_inv {pm : ProcessManager} (h : PMReachable pm) : PMInv pm := by
  induction h with
  | init => exact pmInv_new
  | start pm env config _ ih => exact pmInv_start pm env config ih
  | stop pm _ ih => exact pmInv_stop pm ih
  | watcher pm exit_status _ ih => exact pmInv_watcher pm exit_status ih
  | output pm is_stdout line_has_done _ ih => exact pmInv_output pm is_stdout line_has_done ih
  | status pm server_id alive elapsed _ ih => exact pmInv_get_status pm server_id alive elapsed ih

/-! ## Concrete states used by the counterexamples and witnesses -/

/-- A jar-launched test configuration named `A`. -/
def configA : ServerConfig :=
  { name := "A".data, version := "1.21.1".data, ram_gb := 2, online_mode := true,
    port := 25565, server_dir := "/data/servers/A".data,
    launcher := .Jar "server.jar".data, linked := false }

/-- A start environment in which `command.spawn()` fails with a generic
(non-`NotFound`) error. -/
def spawnFailEnv : StartEnv :=
  { jar_exists := true, args_exists := true, write_args := .ok (), now := 5,
    spawn := .err false "spawn failed" }

/-- A start environment in which the spawn succeeds with all pipes. -/
def spawnOkEnv : StartEnv :=
  { jar_exists := true, args_exists := true, write_args := .ok (), now := 5,
    spawn := .ok { id := 77, stdout_pipe := some 1, stderr_pipe := some 2,
                   stdin_pipe := some 3 } }

/-- The manager state after `start` hit a spawn failure: status `ERROR`,
but `started_at` and `active_server_id` still populated. -/
def pmSpawnFailed : ProcessManager := (ProcessManager.new.start spawnFailEnv configA).1

/-- The manager state for a running server `A`: successful `start` followed
by the stdout ready line. -/
def pmRunningA : ProcessManager :=
  spawn_output_thread_step true true (ProcessManager.new.start spawnOkEnv configA).1

theorem pmRunningA_reachable : PMReachable pmRunningA :=
  PMReachable.output _ true true (PMReachable.start _ spawnOkEnv configA PMReachable.init)

/-- Claim C1, counterexample.  The spawn-failure path of
`ProcessManager::start` (lib.rs:512-523) sets the status to `ERROR` but
leaves `started_at` and `active_server_id` populated, so the claimed
invariant "handle fields `Some` implies status `STARTING`/`RUNNING`" fails
on a reachable state. -/
theorem C1_invariant_counterexample :
    PMReachable pmSpawnFailed ∧
    pmSpawnFailed.active_server_id = some "A".data ∧
    pmSpawnFailed.started_at = some 5 ∧
    pmSpawnFailed.status = .ERROR :=
  ⟨PMReachable.start _ spawnFailEnv configA PMReachable.init, rfl, rfl, rfl⟩

/-- Claim C1, amended.  For every reachable manager state, the
process-handle fields proper (`child`, `stdin`, `pid`) are populated only
in `STARTING`/`RUNNING`; and when all five handle fields (including
`started_at`/`active_server_id`) are absent the status is `STOPPED` or
`ERROR`.  The original claim fails only in that `started_at` and
`active_server_id` can remain populated in `ERROR` (after a spawn failure)
and `started_at` in `STOPPED` (exit watcher, no-child stop). -/
theorem C1_invariant_amended (pm : ProcessManager) (h : PMReachable pm) :
    ((pm.child.isSome ∨ pm.stdin.isSome ∨ pm.pid.isSome) →
      pm.status = .STARTING ∨ pm.status = .RUNNING) ∧
    ((pm.child = none ∧ pm.stdin = none ∧ pm.pid = none ∧ pm.started_at = none ∧
      pm.active_server_id = none) → pm.status = .STOPPED ∨ pm.status = .ERROR) := by
  obtain ⟨h1, h2, h3, h4⟩ := pmReachable_inv h
  constructor
  · rintro (hc | hs | hp)
    · exact h3 hc
    · exact h3 (h1 hs)
    · exact h3 (h2 hp)
  · rintro ⟨-, -, -, hsa, -⟩
    rcases hstat : pm.status with _ | _ | _ | _
    · exact Or.inl rfl
    · exact absurd ((h4 (Or.inl hstat)).1) (by simp [hsa])
    · exact absurd ((h4 (Or.inr hstat)).1) (by simp [hsa])
    · exact Or.inr rfl

/-- Witness for `C1_invariant_amended` at the freshly constructed manager. -/
theorem C1_invariant_amended_witness :
    ((ProcessManager.new.child.isSome ∨ ProcessManager.new.stdin.isSome ∨
      ProcessManager.new.pid.isSome) →
      ProcessManager.new.status = .STARTING ∨ ProcessManager.new.status = .RUNNING) ∧
    ((ProcessManager.new.child = none ∧ ProcessManager.new.stdin = none ∧
      ProcessManager.new.pid = none ∧ ProcessManager.new.started_at = none ∧
      ProcessManager.new.active_server_id = none) →
      ProcessManager.new.status = .STOPPED ∨ ProcessManager.new.status = .ERROR) :=
  C1_invariant_amended ProcessManager.new PMReachable.init

/-- Claim C7, counterexample.  `stop()` on the (reachable) post-spawn-failure
state succeeds and sets `STOPPED`, but does not clear the `started_at`
handle field (the no-child branch of `ProcessManager::stop`, lib.rs:544-549,
only writes `status` and `active_server_id`), refuting "on completion the
handle fields (child, stdin, pid, start timestamp, active server id) are
cleared". -/
theorem C7_stop_counterexample :
    PMReachable pmSpawnFailed ∧
    pmSpawnFailed.stop.2 = .ok () ∧
    pmSpawnFailed.stop.1.status = .STOPPED ∧
    pmSpawnFailed.stop.1.started_at = some 5 :=
  ⟨PMReachable.start _ spawnFailEnv configA PMReachable.init, rfl, rfl, rfl⟩

/-- Claim C7, amended.  `stop()` always returns success and leaves the
status `STOPPED` with no bound server id (in particular it is an idempotent
success on an already-stopped manager); when a child process is present
every handle field is cleared (the result is exactly the fresh state), but
when no child is present the `stdin`/`pid`/`started_at` fields keep their
previous values (on reachable states `stdin`/`pid` are then already `none`,
yet `started_at` can survive, as the counterexample shows). -/
theorem C7_stop_amended (pm : ProcessManager) :
    pm.stop.2 = .ok () ∧
    pm.stop.1.status = .STOPPED ∧
    pm.stop.1.active_server_id = none ∧
    (pm.child.isSome → pm.stop.1 = ProcessManager.new) ∧
    (pm.child = none →
      pm.stop.1 = { pm with status := .STOPPED, active_server_id := none }) := by
  unfold ProcessManager.stop
  rcases hc : pm.child with _ | c <;> simp [ProcessManager.new, hc]

/-- Witness for `C7_stop_amended` on a running manager with a child. -/
theorem C7_stop_amended_witness :
    pmRunningA.stop.2 = .ok () ∧ pmRunningA.stop.1 = ProcessManager.new :=
  ⟨(C7_stop_amended pmRunningA).1, (C7_stop_amended pmRunningA).2.2.2.1 (by decide)⟩

/-- A jar-launched test configuration named `B`. -/
def configB : ServerConfig :=
  { name := "B".data, version := "1.21.1".data, ram_gb := 2, online_mode := true,
    port := 25566, server_dir := "/data/servers/B".data,
    launcher := .Jar "server.jar".data, linked := false }

/-- A fully successful command environment for starting server `B`. -/
def startEnvB : StartServerEnv :=
  { registry := .ok [configA, configB], load_settings := .ok (),
    apply_props := .ok (), java_exe := .ok "/opt/java/bin/java".data,
    start_env := spawnOkEnv }

/-- Claim C5, counterexample.  With server `A` running, `get_status("B")`
does not fail with a conflict error: it returns `Ok(STOPPED)`
(lib.rs:761-767), so the "status call fails with an explicit conflict
error" part of the claim is false (start and stop do fail, see the amended
theorem). -/
theorem C5_conflict_counterexample :
    PMReachable pmRunningA ∧
    pmRunningA.active_server_id = some "A".data ∧
    get_status "B".data true false pmRunningA = (pmRunningA, .ok .STOPPED) :=
  ⟨pmRunningA_reachable, rfl, rfl⟩

/-- Claim C5, amended.  When a different server id owns the handle:
`start_server` (after its successful pre-steps: registry lookup, settings
load, properties rewrite) and `stop_server` both fail with the explicit
conflict error "Another server is currently running" and leave the manager
state unchanged; `get_status` does not fail but reports `STOPPED` for the
non-active server, also leaving the manager state unchanged. -/
theorem C5_conflict_amended (pm : ProcessManager) (server_id active : List Char)
    (hact : pm.active_server_id = some active) (hne : active ≠ server_id)
    (env : StartServerEnv) (servers : List ServerConfig) (config : ServerConfig)
    (hreg : env.registry = .ok servers)
    (hfind : get_server_by_id servers server_id = some config)
    (hload : env.load_settings = .ok ())
    (happly : env.apply_props = .ok ())
    (alive elapsed : Bool) :
    start_server server_id env pm = (pm, .error "Another server is currently running") ∧
    stop_server server_id pm = (pm, .error "Another server is currently running") ∧
    get_status server_id alive elapsed pm = (pm, .ok .STOPPED) := by
  have hconf : active_id_conflicts pm server_id = true := by
    unfold active_id_conflicts
    rw [hact]
    exact bne_iff_ne.mpr hne
  refine ⟨?_, ?_, ?_⟩
  · unfold start_server
    rw [hreg]
    simp only [hfind, hload, happly, hconf, if_true]
  · unfold stop_server
    rw [hconf]
    simp
  · unfold get_status
    rw [hconf]
    simp

/-- Witness for `C5_conflict_amended`: server `A` holds the slot and the
calls target server `B`. -/
theorem C5_conflict_amended_witness :
    start_server "B".data startEnvB pmRunningA =
      (pmRunningA, .error "Another server is currently running") ∧
    stop_server "B".data pmRunningA =
      (pmRunningA, .error "Another server is currently running") ∧
    get_status "B".data true false pmRunningA = (pmRunningA, .ok .STOPPED) :=
  C5_conflict_amended pmRunningA "B".data "A".data (by decide) (by decide)
    startEnvB [configA, configB] configB rfl (by decide) rfl rfl true false

/-! ## Settings and the properties rewriter (lib.rs:396-424, 4129-4170)

`ServerSettings` (lib.rs:396); the string-valued fields stay `List Char`.
`apply_settings_to_properties` is split into the pure content rewrite
(`apply_settings_to_properties`, operating on the file content) and the
file-level wrapper (`apply_settings_to_properties_fs`, failing when
`server.properties` is absent, as `fs::read_to_string` does).  The Rust
`updates` table is a `HashMap` whose iteration order in the append loop is
unspecified; the model fixes the insertion order of lib.rs:4134-4141
(claims about it do not depend on this order). -/

structure ServerSettings where
  required_sleeping_players : Nat
  difficulty : List Char
  gamemode : List Char
  pvp : Bool
  max_players : Nat
  view_distance : Nat
deriving DecidableEq, Repr

/-- The `updates` table (lib.rs:4133-4141), in insertion order. -/
def updatesList (settings : ServerSettings) : List (List Char × List Char) :=
  [("difficulty".data, strToLower settings.difficulty),
   ("gamemode".data, strToLower settings.gamemode),
   ("pvp".data, boolToStr settings.pvp),
   ("max-players".data, natToStr settings.max_players),
   ("view-distance".data, natToStr settings.view_distance),
   ("playersSleepingPercentage".data,
     natToStr (sleepers_to_percentage settings.required_sleeping_players
       settings.max_players))]

/-- The line loop of `apply_settings_to_properties` (lib.rs:4143-4161):
comment lines (`#`/`!` after trimming) and lines without `=` are kept
verbatim; lines whose trimmed key is in `updates` are replaced by
`key=value` and the key is recorded in `seen`; other keyed lines are kept
verbatim.  Returns the rewritten lines and the final `seen` set. -/
def applyLoop (updates : List (List Char × List Char)) (seen : List (List Char)) :
    List (List Char) → List (List Char) × List (List Char)
  | [] => ([], seen)
  | line :: rest =>
    let trimmed := rustTrim line
    if trimmed.head? == some '#' || trimmed.head? == some '!' ||
        !(trimmed.contains '=') then
      (line :: (applyLoop updates seen rest).1, (applyLoop updates seen rest).2)
    else
      let key := rustTrim (trimmed.takeWhile (fun c => c != '='))
      match List.lookup key updates with
      | some value =>
        ((key ++ '=' :: value) :: (applyLoop updates (key :: seen) rest).1,
         (applyLoop updates (key :: seen) rest).2)
      | none =>
        (line :: (applyLoop updates seen rest).1, (applyLoop updates seen rest).2)

/-- Rust `fn apply_settings_to_properties` (lib.rs:4129-4170), as a pure rewrite
of the file content: rewrite each line, append `key=value` for every update
key not seen, join with newlines and a final newline. -/
def apply_settings_to_properties (settings : ServerSettings) (content : List Char) :
    List Char :=
  let updates := updatesList settings
  let lines := (applyLoop updates [] (rustLines content)).1
  let seen := (applyLoop updates [] (rustLines content)).2
  let appends := (updates.filter (fun kv => !(seen.contains kv.1))).map
    (fun kv => kv.1 ++ '=' :: kv.2)
  joinLinesNl (lines ++ appends)

/-- The files of one server install directory that the settings layer
touches. -/
structure ServerDirFiles where
  settings_file : Option (List Char)
  properties : Option (List Char)
deriving DecidableEq, Repr

/-- Rust `fn save_settings` (lib.rs:4101): write the TOML-encoded settings file
(`encoded` is the output of the external `toml` crate). -/
def save_settings (encoded : List Char) (fs : ServerDirFiles) : ServerDirFiles :=
  { fs with settings_file := some encoded }

/-- File-level `apply_settings_to_properties` (lib.rs:4129-4131 reads the
file and fails when it is absent). -/
def apply_settings_to_properties_fs (settings : ServerSettings)
    (fs : ServerDirFiles) : Except String ServerDirFiles :=
  match fs.properties with
  | none => .error "server.properties is missing"
  | some content =>
    .ok { fs with properties := some (apply_settings_to_properties settings content) }

/-- Rust `struct ApplyResult` (lib.rs:426). -/
structure ApplyResult where
  applied : Bool
  pending_restart : Bool
deriving DecidableEq, Repr

/-- Rust `#[tauri::command] fn update_server_settings` (lib.rs:2055-2076).
`found` models `resolve_server_dir` succeeding, `encoded` the result of the
TOML serialisation inside `save_settings`, and the running check is
`is_server_running` on the process manager. -/
def update_server_settings (found : Bool) (encoded : Except String (List Char))
    (settings : ServerSettings) (pm : ProcessManager) (fs : ServerDirFiles) :
    Except String (ServerDirFiles × ApplyResult) :=
  if !found then .error "Server not found"
  else
    match encoded with
    | .error e => .error e
    | .ok enc =>
      let fs1 := save_settings enc fs
      if is_server_running pm then .ok (fs1, { applied := false, pending_restart := true })
      else
        match apply_settings_to_properties_fs settings fs1 with
        | .error e => .error e
        | .ok fs2 => .ok (fs2, { applied := true, pending_restart := false })

/-- Settings used by the C4/C6 concrete instances: difficulty `easy`, the
rest defaults (lib.rs:413-424). -/
def settingsEasy : ServerSettings :=
  { required_sleeping_players := 1, difficulty := "easy".data,
    gamemode := "survival".data, pvp := true, max_players := 20,
    view_distance := 10 }

/-- A server directory whose `server.properties` sets `difficulty=hard`. -/
def fsHard : ServerDirFiles :=
  { settings_file := none, properties := some "difficulty=hard\n".data }

/-- Claim C4, counterexample.  With the server running,
`update_server_settings` returns `applied=false`/`pending_restart=true` and
writes the typed-settings file, but `server.properties` is left byte-for-byte
unchanged (`difficulty=hard` stays), even though applying the new settings
would have changed it — the claim's "the on-disk server.properties file is
still updated with the new settings" is false; only `apply_server_settings`
(lib.rs:2079) rewrites the properties file while running. -/
theorem C4_update_while_running_counterexample :
    update_server_settings true (.ok "difficulty = \x22easy\x22".data) settingsEasy
        pmRunningA fsHard =
      .ok ({ settings_file := some "difficulty = \x22easy\x22".data,
             properties := some "difficulty=hard\n".data },
           { applied := false, pending_restart := true }) ∧
    apply_settings_to_properties settingsEasy "difficulty=hard\n".data ≠
      "difficulty=hard\n".data := by
  constructor
  · rfl
  · decide

/-- Claim C4, amended.  When the server is currently running (status
`RUNNING` or `STARTING`), `update_server_settings` returns
`applied = false`, `pending_restart = true`, saves the typed settings file,
and leaves `server.properties` untouched; the properties file is only
rewritten on the next start (`start_server` applies the settings before
spawning, lib.rs:684-685) or through `apply_server_settings`. -/
theorem C4_update_while_running_amended (settings : ServerSettings)
    (enc : List Char) (pm : ProcessManager) (fs : ServerDirFiles)
    (hrun : is_server_running pm = true) :
    update_server_settings true (.ok enc) settings pm fs =
      .ok ({ fs with settings_file := some enc },
           { applied := false, pending_restart := true }) := by
  unfold update_server_settings save_settings
  simp [hrun]

/-- Witness for `C4_update_while_running_amended` on the running manager. -/
theorem C4_update_while_running_amended_witness :
    update_server_settings true (.ok "x=1".data) settingsEasy pmRunningA fsHard =
      .ok ({ fsHard with settings_file := some "x=1".data },
           { applied := false, pending_restart := true }) :=
  C4_update_while_running_amended settingsEasy "x=1".data pmRunningA fsHard (by decide)

/-! ## Idempotence analysis of the properties rewriter (claim C6) -/

/-- The per-line decision of the rewrite loop: `some (key, value)` when the
line is a keyed line whose trimmed key is in `updates` (it gets replaced by
`key=value`), `none` when the line is kept verbatim. -/
def lineKeyVal (updates : List (List Char × List Char)) (line : List Char) :
    Option (List Char × List Char) :=
  let trimmed := rustTrim line
  if trimmed.head? == some '#' || trimmed.head? == some '!' ||
      !(trimmed.contains '=') then none
  else
    let key := rustTrim (trimmed.takeWhile (fun c => c != '='))
    match List.lookup key updates with
    | some value => some (key, value)
    | none => none

/-- The line written out by the rewrite loop. -/
def outLine (updates : List (List Char × List Char)) (line : List Char) :
    List Char :=
  match lineKeyVal updates line with
  | some (k, v) => k ++ '=' :: v
  | none => line

/-- The key recorded in `seen` by the rewrite loop, if any. -/
def lineKey (updates : List (List Char × List Char)) (line : List Char) :
    Option (List Char) :=
  (lineKeyVal updates line).map (·.1)

theorem lineKeyVal_none_of_cond {updates : List (List Char × List Char)}
    {line : List Char}
    (hcond : ((rustTrim line).head? == some '#' || (rustTrim line).head? == some '!' ||
      !((rustTrim line).contains '=')) = true) :
    lineKeyVal updates line = none := by
  unfold lineKeyVal
  dsimp only
  rw [if_pos hcond]

theorem lineKeyVal_none_of_lookup {updates : List (List Char × List Char)}
    {line : List Char}
    (hcond : ¬ ((rustTrim line).head? == some '#' || (rustTrim line).head? == some '!' ||
      !((rustTrim line).contains '=')) = true)
    (hlk : List.lookup (rustTrim ((rustTrim line).takeWhile (fun c => c != '=')))
      updates = none) :
    lineKeyVal updates line = none := by
  unfold lineKeyVal
  dsimp only
  rw [if_neg hcond, hlk]

theorem lineKeyVal_some_of_lookup {updates : List (List Char × List Char)}
    {line v : List Char}
    (hcond : ¬ ((rustTrim line).head? == some '#' || (rustTrim line).head? == some '!' ||
      !((rustTrim line).contains '=')) = true)
    (hlk : List.lookup (rustTrim ((rustTrim line).takeWhile (fun c => c != '=')))
      updates = some v) :
    lineKeyVal updates line =
      some (rustTrim ((rustTrim line).takeWhile (fun c => c != '=')), v) := by
  unfold lineKeyVal
  dsimp only
  rw [if_neg hcond, hlk]

theorem outLine_eq_of_none {updates : List (List Char × List Char)}
    {line : List Char} (h : lineKeyVal updates line = none) :
    outLine updates line = line := by
  unfold outLine
  rw [h]

theorem outLine_eq_of_some {updates : List (List Char × List Char)}
    {line k v : List Char} (h : lineKeyVal updates line = some (k, v)) :
    outLine updates line = k ++ '=' :: v := by
  unfold outLine
  rw [h]

theorem applyLoop_fst (updates : List (List Char × List Char))
    (seen : List (List Char)) (lines : List (List Char)) :
    (applyLoop updates seen lines).1 = lines.map (outLine updates) := by
  induction lines generalizing seen with
  | nil => rfl
  | cons line rest ih =>
    unfold applyLoop
    dsimp only
    split
    · next hcond =>
      rw [List.map_cons, outLine_eq_of_none (lineKeyVal_none_of_cond hcond), ih seen]
    · next hcond =>
      rcases hlk : List.lookup (rustTrim ((rustTrim line).takeWhile (fun c => c != '=')))
          updates with _ | v
      · dsimp only
        rw [List.map_cons, outLine_eq_of_none (lineKeyVal_none_of_lookup hcond hlk), ih seen]
      · dsimp only
        rw [List.map_cons, outLine_eq_of_some (lineKeyVal_some_of_lookup hcond hlk), ih]

theorem applyLoop_snd_mem (updates : List (List Char × List Char))
    (seen : List (List Char)) (lines : List (List Char)) (k : List Char) :
    k ∈ (applyLoop updates seen lines).2 ↔
      k ∈ seen ∨ ∃ l ∈ lines, lineKey updates l = some k := by
  induction lines generalizing seen with
  | nil => simp [applyLoop]
  | cons line rest ih =>
    unfold applyLoop
    dsimp only
    split
    · next hcond =>
      have hnone : lineKeyVal updates line = none := lineKeyVal_none_of_cond hcond
      rw [ih seen]
      simp only [List.mem_cons]
      constructor
      · rintro (hk | ⟨l, hl, hkey⟩)
        · exact Or.inl hk
        · exact Or.inr ⟨l, Or.inr hl, hkey⟩
      · rintro (hk | ⟨l, (rfl | hl), hkey⟩)
        · exact Or.inl hk
        · rw [lineKey, hnone] at hkey
          simp at hkey
        · exact Or.inr ⟨l, hl, hkey⟩
    · next hcond =>
      rcases hlk : List.lookup (rustTrim ((rustTrim line).takeWhile (fun c => c != '=')))
          updates with _ | v
      · dsimp only
        have hnone : lineKeyVal updates line = none := lineKeyVal_none_of_lookup hcond hlk
        rw [ih seen]
        simp only [List.mem_cons]
        constructor
        · rintro (hk | ⟨l, hl, hkey⟩)
          · exact Or.inl hk
          · exact Or.inr ⟨l, Or.inr hl, hkey⟩
        · rintro (hk | ⟨l, (rfl | hl), hkey⟩)
          · exact Or.inl hk
          · rw [lineKey, hnone] at hkey
            simp at hkey
          · exact Or.inr ⟨l, hl, hkey⟩
      · dsimp only
        have hsome := lineKeyVal_some_of_lookup hcond hlk
        rw [ih]
        simp only [List.mem_cons]
        constructor
        · rintro ((rfl | hk) | ⟨l, hl, hkey⟩)
          · exact Or.inr ⟨line, Or.inl rfl, by rw [lineKey, hsome]; rfl⟩
          · exact Or.inl hk
          · exact Or.inr ⟨l, Or.inr hl, hkey⟩
        · rintro (hk | ⟨l, (rfl | hl), hkey⟩)
          · exact Or.inl (Or.inr hk)
          · rw [lineKey, hsome] at hkey
            have hkk := Option.some.inj hkey
            exact Or.inl (Or.inl hkk.symm)
          · exact Or.inr ⟨l, hl, hkey⟩


/-! ### Structure of `rustLines` on rewritten content -/

theorem splitOnChar_ne_nil (c : Char) (s : List Char) : splitOnChar c s ≠ [] := by
  cases s with
  | nil => simp [splitOnChar]
  | cons ch rest =>
    unfold splitOnChar
    cases splitOnChar c rest with
    | nil => dsimp only; split <;> simp
    | cons seg segs => dsimp only; split <;> simp

theorem not_mem_splitOnChar (c : Char) (s : List Char) :
    ∀ l ∈ splitOnChar c s, c ∉ l := by
  induction s with
  | nil => intro l hl; simp [splitOnChar] at hl; simp [hl]
  | cons ch rest ih =>
    intro l hl
    unfold splitOnChar at hl
    rcases hsp : splitOnChar c rest with _ | ⟨seg, segs⟩
    · exact absurd hsp (splitOnChar_ne_nil c rest)
    · rw [hsp] at hl
      dsimp only at hl
      by_cases hch : ch = c
      · rw [if_pos hch] at hl
        rcases List.mem_cons.mp hl with rfl | hl2
        · simp
        · exact ih l (hsp ▸ hl2)
      · rw [if_neg hch] at hl
        rcases List.mem_cons.mp hl with rfl | hl2
        · intro hmem
          rcases List.mem_cons.mp hmem with rfl | hmem2
          · exact hch rfl
          · exact ih seg (hsp ▸ List.mem_cons_self seg segs) hmem2
        · exact ih l (hsp ▸ List.mem_cons_of_mem seg hl2)

theorem splitOnChar_of_not_mem {c : Char} {s : List Char} (h : c ∉ s) :
    splitOnChar c s = [s] := by
  induction s with
  | nil => rfl
  | cons ch rest ih =>
    unfold splitOnChar
    have hne : ¬ ch = c := fun hc => h (hc ▸ List.mem_cons_self ch rest)
    rw [ih (fun hm => h (List.mem_cons_of_mem ch hm))]
    simp [hne]

theorem splitOnChar_append_cons {c : Char} {m : List Char} (t : List Char)
    (h : c ∉ m) : splitOnChar c (m ++ c :: t) = m :: splitOnChar c t := by
  induction m with
  | nil =>
    simp only [List.nil_append]
    rcases hsp : splitOnChar c t with _ | ⟨seg, segs⟩
    · exact absurd hsp (splitOnChar_ne_nil c t)
    · rw [splitOnChar, hsp]
      simp
  | cons ch rest ih =>
    have hne : ¬ ch = c := fun hc => h (hc ▸ List.mem_cons_self ch rest)
    have hrest : c ∉ rest := fun hm => h (List.mem_cons_of_mem ch hm)
    simp only [List.cons_append]
    rw [splitOnChar, ih hrest]
    simp [hne]

theorem joinLinesNl_ne_nil (ls : List (List Char)) : joinLinesNl ls ≠ [] := by
  rcases ls with _ | ⟨l, _ | ⟨m, rest⟩⟩ <;> simp [joinLinesNl]

theorem joinLinesNl_getLast? (ls : List (List Char)) :
    (joinLinesNl ls).getLast? = some '\n' := by
  induction ls with
  | nil => rfl
  | cons l rest ih =>
    rcases rest with _ | ⟨m, rest2⟩
    · simp [joinLinesNl]
    · show (l ++ '\n' :: joinLinesNl (m :: rest2)).getLast? = some '\n'
      rw [List.getLast?_append_of_ne_nil _ (by simp)]
      show (['\n'] ++ joinLinesNl (m :: rest2)).getLast? = some '\n'
      rw [List.getLast?_append_of_ne_nil _ (joinLinesNl_ne_nil _)]
      exact ih

theorem splitOnChar_joinLinesNl (ls : List (List Char)) (hne : ls ≠ [])
    (h : ∀ l ∈ ls, '\n' ∉ l) :
    splitOnChar '\n' (joinLinesNl ls) = ls ++ [[]] := by
  induction ls with
  | nil => exact absurd rfl hne
  | cons l rest ih =>
    rcases rest with _ | ⟨m, rest2⟩
    · show splitOnChar '\n' (l ++ '\n' :: []) = [l] ++ [[]]
      rw [splitOnChar_append_cons [] (h l (List.mem_cons_self l []))]
      rfl
    · show splitOnChar '\n' (l ++ '\n' :: joinLinesNl (m :: rest2)) = _
      rw [splitOnChar_append_cons _ (h l (List.mem_cons_self _ _))]
      rw [ih (by simp) (fun x hx => h x (List.mem_cons_of_mem l hx))]
      rfl

/-- Rust `lines()` of `lines.join("\n") + "\n"`: since every line is free of
`'\n'`, this recovers the lines, with one trailing `'\r'` stripped from
each. -/
theorem rustLines_joinLinesNl (ls : List (List Char)) (hne : ls ≠ [])
    (h : ∀ l ∈ ls, '\n' ∉ l) :
    rustLines (joinLinesNl ls) = ls.map stripTrailingCR := by
  unfold rustLines
  rw [if_neg (joinLinesNl_ne_nil ls)]
  dsimp only
  rw [if_pos (joinLinesNl_getLast? ls), splitOnChar_joinLinesNl ls hne h,
    List.dropLast_concat]

theorem stripTrailingCR_of_getLast_ne {l : List Char}
    (h : l.getLast? ≠ some '\r') : stripTrailingCR l = l := by
  unfold stripTrailingCR
  split
  · next heq => exact absurd heq h
  · rfl

/-! ### Stability of rewritten `key=value` lines under re-parsing -/

/-- Trailing-whitespace trim (the right half of `rustTrim`). -/
def trimRight (s : List Char) : List Char :=
  (s.reverse.dropWhile isRustWhitespace).reverse

theorem dropWhile_append_of_ne {α : Type} (p : α → Bool) (xs ys : List α) (y : α)
    (hy : p y = false) :
    List.dropWhile p (xs ++ y :: ys) = List.dropWhile p xs ++ y :: ys := by
  induction xs with
  | nil => simp [List.dropWhile_cons, hy]
  | cons x xs ih =>
    simp only [List.cons_append, List.dropWhile_cons]
    rcases hx : p x with _ | _
    · simp
    · simpa [hx] using ih

theorem rustTrim_keyline (k v : List Char) (c0 : Char) (rest0 : List Char)
    (hk : k = c0 :: rest0) (hc0 : isRustWhitespace c0 = false) :
    rustTrim (k ++ '=' :: v) = k ++ '=' :: trimRight v := by
  subst hk
  unfold rustTrim trimRight
  have h1 : List.dropWhile isRustWhitespace ((c0 :: rest0) ++ '=' :: v) =
      (c0 :: rest0) ++ '=' :: v := by
    simp [List.dropWhile_cons, hc0]
  rw [h1]
  have h2 : ((c0 :: rest0) ++ '=' :: v).reverse =
      v.reverse ++ '=' :: (c0 :: rest0).reverse := by
    simp
  rw [h2, dropWhile_append_of_ne _ _ _ '=' (by decide)]
  simp

theorem takeWhile_ne_eq_append (k w : List Char) (hk : '=' ∉ k) :
    List.takeWhile (fun c => c != '=') (k ++ '=' :: w) = k := by
  induction k with
  | nil => simp [List.takeWhile_cons]
  | cons c k' ih =>
    have hc : ¬ c = '=' := fun hc => hk (hc ▸ List.mem_cons_self c k')
    simp only [List.cons_append, List.takeWhile_cons]
    have : (c != '=') = true := by simpa using hc
    rw [this]
    simp only [if_true]
    rw [ih (fun hm => hk (List.mem_cons_of_mem c hm))]

theorem stripTrailingCR_of_getLast_cr {l : List Char}
    (h : l.getLast? = some '\r') : stripTrailingCR l = l.dropLast := by
  unfold stripTrailingCR
  rw [h]
  rfl

theorem stripTrailingCR_keyline (k v : List Char) :
    ∃ w, stripTrailingCR (k ++ '=' :: v) = k ++ '=' :: w ∧ ∀ c ∈ w, c ∈ v := by
  have hlast : (k ++ '=' :: v).getLast? = ('=' :: v).getLast? :=
    List.getLast?_append_of_ne_nil _ (by simp)
  by_cases hcr : ('=' :: v).getLast? = some '\r'
  · have hv : v ≠ [] := by
      intro hveq
      subst hveq
      simp at hcr
    refine ⟨v.dropLast, ?_, fun c hc => (List.dropLast_sublist v).mem hc⟩
    rw [stripTrailingCR_of_getLast_cr (hlast.trans hcr)]
    rw [List.dropLast_append_of_ne_nil _ (by simp)]
    rw [List.dropLast_cons_of_ne_nil hv]
  · exact ⟨v, stripTrailingCR_of_getLast_ne (fun hc => hcr (hlast ▸ hc)), fun c hc => hc⟩

/-- Well-formedness of an update key, sufficient for a rewritten
`key=value` line to re-parse to the same key: nonempty, trim-stable, free
of `=` and `\n`, and starting with a non-whitespace, non-comment
character.  All six keys of `updatesList` satisfy it (by computation). -/
def keyOK (k : List Char) : Bool :=
  !k.isEmpty && (rustTrim k == k) && !(k.contains '=') && !(k.contains '\n') &&
    (match k.head? with
     | some c => !(isRustWhitespace c) && (c != '#') && (c != '!')
     | none => false)

theorem lineKeyVal_keyline (updates : List (List Char × List Char))
    (k v w : List Char) (hOK : keyOK k = true)
    (hlk : List.lookup k updates = some v) :
    lineKeyVal updates (k ++ '=' :: w) = some (k, v) := by
  rcases k with _ | ⟨c0, k'⟩
  · simp [keyOK] at hOK
  unfold keyOK at hOK
  simp only [List.head?_cons, Bool.and_eq_true, Bool.not_eq_true',
    List.isEmpty_cons, beq_iff_eq, bne_iff_ne] at hOK
  obtain ⟨⟨⟨⟨-, htrimk⟩, hnoeq⟩, hnonl⟩, ⟨hws, hnhash⟩, hnbang⟩ := hOK
  have hnoeqmem : '=' ∉ c0 :: k' := by
    intro hm
    have hcont : ((c0 :: k').contains '=') = true := List.elem_iff.mpr hm
    rw [hcont] at hnoeq
    exact Bool.noConfusion hnoeq
  have htrim := rustTrim_keyline (c0 :: k') w c0 k' rfl hws
  unfold lineKeyVal
  dsimp only
  rw [htrim]
  have hcond : (((c0 :: k') ++ '=' :: trimRight w).head? == some '#' ||
      ((c0 :: k') ++ '=' :: trimRight w).head? == some '!' ||
      !(((c0 :: k') ++ '=' :: trimRight w).contains '=')) = false := by
    have hhead : ((c0 :: k') ++ '=' :: trimRight w).head? = some c0 := rfl
    have hmem : '=' ∈ (c0 :: k') ++ '=' :: trimRight w :=
      List.mem_append_right _ (List.mem_cons_self _ _)
    have hcont : (((c0 :: k') ++ '=' :: trimRight w).contains '=') = true :=
      List.elem_iff.mpr hmem
    rw [hhead, hcont]
    simp [hnhash, hnbang]
  rw [hcond]
  simp only [Bool.false_eq_true, if_false]
  rw [takeWhile_ne_eq_append _ _ hnoeqmem, htrimk, hlk]

theorem outLine_keyline (updates : List (List Char × List Char))
    (k v : List Char) (hOK : keyOK k = true)
    (hlk : List.lookup k updates = some v) :
    outLine updates (stripTrailingCR (k ++ '=' :: v)) = k ++ '=' :: v ∧
    lineKey updates (stripTrailingCR (k ++ '=' :: v)) = some k := by
  obtain ⟨w, hw, -⟩ := stripTrailingCR_keyline k v
  rw [hw]
  have h := lineKeyVal_keyline updates k v w hOK hlk
  exact ⟨outLine_eq_of_some h, by rw [lineKey, h]; rfl⟩

theorem lookup_val_mem {α β : Type} [BEq α] {a : α} {ps : List (α × β)} {b : β}
    (h : List.lookup a ps = some b) : b ∈ ps.map Prod.snd := by
  induction ps with
  | nil => simp [List.lookup] at h
  | cons p rest ih =>
    rcases p with ⟨pk, pv⟩
    rw [List.lookup] at h
    rcases hbeq : a == pk with _ | _
    · rw [hbeq] at h
      exact List.mem_cons_of_mem _ (ih h)
    · rw [hbeq] at h
      injection h with h
      subst h
      exact List.mem_cons_self _ _

theorem lookup_pair_mem {α β : Type} [BEq α] [LawfulBEq α] {a : α}
    {ps : List (α × β)} {b : β} (h : List.lookup a ps = some b) : (a, b) ∈ ps := by
  induction ps with
  | nil => simp [List.lookup] at h
  | cons p rest ih =>
    rcases p with ⟨pk, pv⟩
    rw [List.lookup] at h
    rcases hbeq : a == pk with _ | _
    · rw [hbeq] at h
      exact List.mem_cons_of_mem _ (ih h)
    · rw [hbeq] at h
      injection h with h
      subst h
      have : a = pk := eq_of_beq hbeq
      subst this
      exact List.mem_cons_self _ _

theorem lineKeyVal_lookup {updates : List (List Char × List Char)}
    {l k v : List Char} (h : lineKeyVal updates l = some (k, v)) :
    List.lookup k updates = some v := by
  unfold lineKeyVal at h
  dsimp only at h
  split at h
  · exact absurd h (by simp)
  · rcases hlk : List.lookup (rustTrim ((rustTrim l).takeWhile (fun c => c != '=')))
        updates with _ | v'
    · rw [hlk] at h
      simp at h
    · rw [hlk] at h
      dsimp only at h
      injection h with h
      injection h with h1 h2
      subst h1
      subst h2
      exact hlk

theorem charToLower_ne_newline {c : Char} (h : c ≠ '\n') :
    charToLower c ≠ '\n' := by
  unfold charToLower
  rcases hl : List.lookup c asciiLowerPairs with _ | l
  · exact h
  · have hmem := lookup_val_mem hl
    intro hc
    subst hc
    revert hmem
    decide

theorem strToLower_no_newline {s : List Char} (h : '\n' ∉ s) :
    '\n' ∉ strToLower s := by
  intro hm
  rcases List.mem_map.mp hm with ⟨a, ha, hla⟩
  exact charToLower_ne_newline (fun hc => h (hc ▸ ha)) hla

theorem natDigitsAux_no_newline (fuel n : Nat) : '\n' ∉ natDigitsAux fuel n := by
  induction fuel generalizing n with
  | zero => simp [natDigitsAux]
  | succ fuel ih =>
    rcases n with _ | m
    · simp [natDigitsAux]
    · intro hm
      unfold natDigitsAux at hm
      rcases List.mem_cons.mp hm with heq | hm2
      · have hlt : (m + 1) % 10 < 10 := Nat.mod_lt _ (by decide)
        have : ∀ d, d < 10 → Nat.digitChar d ≠ '\n' := by decide
        exact this _ hlt heq.symm
      · exact ih _ hm2

theorem natToStr_no_newline (n : Nat) : '\n' ∉ natToStr n := by
  unfold natToStr
  split
  · decide
  · intro hm
    exact natDigitsAux_no_newline n n (List.mem_reverse.mp hm)

theorem boolToStr_no_newline (b : Bool) : '\n' ∉ boolToStr b := by
  cases b <;> decide

/-- Every entry of the `updates` table has a well-formed key, is recovered
by key lookup (the six keys are distinct), and — when the difficulty and
game-mode strings contain no newline — a newline-free value. -/
theorem updatesList_facts (s : ServerSettings) (hd : '\n' ∉ s.difficulty)
    (hg : '\n' ∉ s.gamemode) :
    ∀ kv ∈ updatesList s, keyOK kv.1 = true ∧
      List.lookup kv.1 (updatesList s) = some kv.2 ∧ '\n' ∉ kv.2 := by
  intro kv hkv
  simp only [updatesList, List.mem_cons] at hkv
  rcases hkv with rfl | rfl | rfl | rfl | rfl | rfl | h
  · exact ⟨(by decide : keyOK "difficulty".data = true), rfl, strToLower_no_newline hd⟩
  · exact ⟨(by decide : keyOK "gamemode".data = true), rfl, strToLower_no_newline hg⟩
  · exact ⟨(by decide : keyOK "pvp".data = true), rfl, boolToStr_no_newline _⟩
  · exact ⟨(by decide : keyOK "max-players".data = true), rfl, natToStr_no_newline _⟩
  · exact ⟨(by decide : keyOK "view-distance".data = true), rfl, natToStr_no_newline _⟩
  · exact ⟨(by decide : keyOK "playersSleepingPercentage".data = true), rfl,
      natToStr_no_newline _⟩
  · exact absurd h (List.not_mem_nil kv)

theorem stripTrailingCR_mem {l : List Char} : ∀ c ∈ stripTrailingCR l, c ∈ l := by
  unfold stripTrailingCR
  split
  · exact fun c hc => (List.dropLast_sublist l).mem hc
  · exact fun c hc => hc

theorem rustLines_no_newline (content : List Char) :
    ∀ l ∈ rustLines content, '\n' ∉ l := by
  unfold rustLines
  split
  · simp
  · dsimp only
    intro l hl hmem
    split at hl <;>
    · rcases List.mem_map.mp hl with ⟨seg, hseg, rfl⟩
      have hsegmem : seg ∈ splitOnChar '\n' content := by
        first
        | exact (List.dropLast_sublist _).mem hseg
        | exact hseg
      exact not_mem_splitOnChar '\n' content seg hsegmem (stripTrailingCR_mem _ hmem)

theorem keyline_no_newline {k v : List Char} (hkOK : keyOK k = true)
    (hv : '\n' ∉ v) : '\n' ∉ k ++ '=' :: v := by
  intro hm
  rcases List.mem_append.mp hm with hk | hv2
  · unfold keyOK at hkOK
    simp only [Bool.and_eq_true, Bool.not_eq_true'] at hkOK
    obtain ⟨⟨⟨⟨-, -⟩, -⟩, hknl⟩, -⟩ := hkOK
    have hcont : (k.contains '\n') = true := List.elem_iff.mpr hk
    rw [hcont] at hknl
    exact Bool.noConfusion hknl
  · rcases List.mem_cons.mp hv2 with heq | hvin
    · exact absurd heq (by decide)
    · exact hv hvin

/-- The full list of output lines of one `apply_settings_to_properties`
run: the rewritten input lines followed by the appended missing keys. -/
def propsOutLines (settings : ServerSettings) (content : List Char) :
    List (List Char) :=
  let updates := updatesList settings
  let lines := (applyLoop updates [] (rustLines content)).1
  let seen := (applyLoop updates [] (rustLines content)).2
  let appends := (updates.filter (fun kv => !(seen.contains kv.1))).map
    (fun kv => kv.1 ++ '=' :: kv.2)
  lines ++ appends

theorem apply_settings_eq_join (settings : ServerSettings) (content : List Char) :
    apply_settings_to_properties settings content =
      joinLinesNl (propsOutLines settings content) := rfl

theorem propsOutLines_ne_nil (settings : ServerSettings) (content : List Char) :
    propsOutLines settings content ≠ [] := by
  unfold propsOutLines
  dsimp only
  rcases hL : rustLines content with _ | ⟨l, ls⟩
  · simp [applyLoop, updatesList]
  · rw [applyLoop_fst]
    simp

theorem propsOutLines_facts (settings : ServerSettings) (content : List Char)
    (hCR : ∀ l ∈ rustLines content, l.getLast? ≠ some '\r')
    (hd : '\n' ∉ settings.difficulty) (hg : '\n' ∉ settings.gamemode) :
    ∀ x ∈ propsOutLines settings content,
      '\n' ∉ x ∧ outLine (updatesList settings) (stripTrailingCR x) = x := by
  intro x hx
  unfold propsOutLines at hx
  dsimp only at hx
  rcases List.mem_append.mp hx with hx1 | hx2
  · rw [applyLoop_fst] at hx1
    rcases List.mem_map.mp hx1 with ⟨l, hl, rfl⟩
    rcases hkv : lineKeyVal (updatesList settings) l with _ | ⟨k, v⟩
    · rw [outLine_eq_of_none hkv]
      refine ⟨fun hm => rustLines_no_newline content l hl hm, ?_⟩
      rw [stripTrailingCR_of_getLast_ne (hCR l hl), outLine_eq_of_none hkv]
    · rw [outLine_eq_of_some hkv]
      have hlk := lineKeyVal_lookup hkv
      have hpair := lookup_pair_mem hlk
      obtain ⟨hkOK, -, hvnl⟩ := updatesList_facts settings hd hg (k, v) hpair
      exact ⟨keyline_no_newline hkOK hvnl, (outLine_keyline _ k v hkOK hlk).1⟩
  · rcases List.mem_map.mp hx2 with ⟨kv, hkvf, rfl⟩
    have hkvU := List.mem_of_mem_filter hkvf
    obtain ⟨hkOK, hlk, hvnl⟩ := updatesList_facts settings hd hg kv hkvU
    exact ⟨keyline_no_newline hkOK hvnl, (outLine_keyline _ kv.1 kv.2 hkOK hlk).1⟩

theorem propsOutLines_covers (settings : ServerSettings) (content : List Char)
    (hd : '\n' ∉ settings.difficulty) (hg : '\n' ∉ settings.gamemode) :
    ∀ kv ∈ updatesList settings,
      ∃ l ∈ (propsOutLines settings content).map stripTrailingCR,
        lineKey (updatesList settings) l = some kv.1 := by
  intro kv hkv
  obtain ⟨hkOK, hlk, -⟩ := updatesList_facts settings hd hg kv hkv
  by_cases hseen : kv.1 ∈ (applyLoop (updatesList settings) [] (rustLines content)).2
  · rcases (applyLoop_snd_mem _ [] _ kv.1).mp hseen with hfalse | ⟨l, hl, hlkey⟩
    · exact absurd hfalse (List.not_mem_nil _)
    · rcases hkv2 : lineKeyVal (updatesList settings) l with _ | ⟨k', v'⟩
      · rw [lineKey, hkv2] at hlkey
        simp at hlkey
      · rw [lineKey, hkv2] at hlkey
        have hk' : k' = kv.1 := Option.some.inj hlkey
        subst hk'
        have hlk' := lineKeyVal_lookup hkv2
        refine ⟨stripTrailingCR (kv.1 ++ '=' :: v'), ?_,
          (outLine_keyline _ kv.1 v' hkOK hlk').2⟩
        apply List.mem_map_of_mem
        unfold propsOutLines
        dsimp only
        apply List.mem_append_left
        rw [applyLoop_fst]
        exact List.mem_map.mpr ⟨l, hl, outLine_eq_of_some hkv2⟩
  · refine ⟨stripTrailingCR (kv.1 ++ '=' :: kv.2), ?_,
      (outLine_keyline _ kv.1 kv.2 hkOK hlk).2⟩
    apply List.mem_map_of_mem
    unfold propsOutLines
    dsimp only
    apply List.mem_append_right
    apply List.mem_map_of_mem
    refine List.mem_filter.mpr ⟨hkv, ?_⟩
    have : ((applyLoop (updatesList settings) [] (rustLines content)).2.contains kv.1) = false := by
      rcases hc : ((applyLoop (updatesList settings) [] (rustLines content)).2.contains kv.1) with _ | _
      · rfl
      · exact absurd (List.elem_iff.mp hc) hseen
    rw [this]
    rfl

/-- Claim C6, amended (main argument).  A second application reproduces the
output lines of the first application exactly, so the rewrite is
idempotent, provided no input line still carries a trailing `'\r'` after
Rust's `lines()` (content without stray `"\r\r\n"` endings) and the two
string-valued settings contain no embedded newline. -/
theorem propsOutLines_idem (settings : ServerSettings) (content : List Char)
    (hCR : ∀ l ∈ rustLines content, l.getLast? ≠ some '\r')
    (hd : '\n' ∉ settings.difficulty) (hg : '\n' ∉ settings.gamemode) :
    propsOutLines settings (joinLinesNl (propsOutLines settings content)) =
      propsOutLines settings content := by
  have hfacts := propsOutLines_facts settings content hCR hd hg
  have hnl : ∀ x ∈ propsOutLines settings content, '\n' ∉ x :=
    fun x hx => (hfacts x hx).1
  have hstab : ∀ x ∈ propsOutLines settings content,
      outLine (updatesList settings) (stripTrailingCR x) = x :=
    fun x hx => (hfacts x hx).2
  have hL2 : rustLines (joinLinesNl (propsOutLines settings content)) =
      (propsOutLines settings content).map stripTrailingCR :=
    rustLines_joinLinesNl _ (propsOutLines_ne_nil settings content) hnl
  have hfst : (applyLoop (updatesList settings) []
      (rustLines (joinLinesNl (propsOutLines settings content)))).1 =
      propsOutLines settings content := by
    rw [hL2, applyLoop_fst, List.map_map]
    calc List.map (outLine (updatesList settings) ∘ stripTrailingCR)
          (propsOutLines settings content)
        = List.map id (propsOutLines settings content) :=
          List.map_congr_left (fun x hx => hstab x hx)
      _ = propsOutLines settings content := List.map_id _
  have hsnd : ∀ kv ∈ updatesList settings,
      kv.1 ∈ (applyLoop (updatesList settings) []
        (rustLines (joinLinesNl (propsOutLines settings content)))).2 := by
    intro kv hkv
    rw [applyLoop_snd_mem]
    refine Or.inr ?_
    rw [hL2]
    exact propsOutLines_covers settings content hd hg kv hkv
  have hfilter : (updatesList settings).filter
      (fun kv => !((applyLoop (updatesList settings) []
        (rustLines (joinLinesNl (propsOutLines settings content)))).2.contains kv.1)) =
      [] := by
    rw [List.filter_eq_nil_iff]
    intro kv hkv
    have hcont : ((applyLoop (updatesList settings) []
        (rustLines (joinLinesNl (propsOutLines settings content)))).2.contains kv.1) =
        true := List.elem_iff.mpr (hsnd kv hkv)
    rw [hcont]
    decide
  show (applyLoop (updatesList settings) []
      (rustLines (joinLinesNl (propsOutLines settings content)))).1 ++ _ = _
  rw [hfst, hfilter]
  simp

/-- Claim C6, counterexample.  Idempotence fails on content containing
`"\r\r\n"`: Rust's `lines()` strips only one `'\r'`, so the first rewrite
emits a line still ending in `'\r'` followed by `'\n'`; the second rewrite
strips that `'\r'` too, producing different bytes.  (With default settings;
the difficulty value is lowercased either way.) -/
theorem C6_idempotent_counterexample :
    apply_settings_to_properties settingsEasy
        (apply_settings_to_properties settingsEasy ['x', '\r', '\r', '\n']) ≠
      apply_settings_to_properties settingsEasy ['x', '\r', '\r', '\n'] := by
  decide

/-- Claim C6, amended.  Applying `apply_settings_to_properties` twice with
identical settings produces byte-identical content after the first
application, for every properties-file content in which no line still ends
with `'\r'` after Rust `lines()` splitting (i.e. no `"\r\r\n"` sequences)
and every settings value whose difficulty/game-mode strings contain no
newline; the counterexample shows the rewrite is not idempotent without
these two provisos. -/
theorem C6_idempotent_amended (settings : ServerSettings) (content : List Char)
    (hCR : ∀ l ∈ rustLines content, l.getLast? ≠ some '\r')
    (hd : '\n' ∉ settings.difficulty) (hg : '\n' ∉ settings.gamemode) :
    apply_settings_to_properties settings
        (apply_settings_to_properties settings content) =
      apply_settings_to_properties settings content := by
  rw [apply_settings_eq_join settings content,
    apply_settings_eq_join settings (joinLinesNl (propsOutLines settings content)),
    propsOutLines_idem settings content hCR hd hg]

/-- Witness for `C6_idempotent_amended` on a benign properties file. -/
theorem C6_idempotent_amended_witness :
    apply_settings_to_properties settingsEasy
        (apply_settings_to_properties settingsEasy "difficulty=hard\nmotd=Gamehost ONE\n".data) =
      apply_settings_to_properties settingsEasy "difficulty=hard\nmotd=Gamehost ONE\n".data :=
  C6_idempotent_amended settingsEasy "difficulty=hard\nmotd=Gamehost ONE\n".data
    (by decide) (by decide) (by decide)

/-! ## Integrity-verified downloads (lib.rs:4591-4704)

The HTTP transport and the SHA-256/SHA-1 hashers are external crates; the
model takes the response (`http_ok` for a success status plus the body
bytes, or a transport error) and the hash function (producing the
`hex::encode` digest string, which for `hex::encode` is lowercase hex)
as inputs.  Each function returns its result together with the list of
contents written to the destination file, so "the destination is never
created" is "the write list is empty". -/

/-- Rust `str::starts_with`. -/
def strStartsWith (s pre : List Char) : Bool := s.take pre.length == pre

/-- Rust `fn ensure_https` (lib.rs:4698-4704). -/
def ensure_https (url : List Char) : Except String Unit :=
  if strStartsWith url "https://".data then .ok ()
  else .error "Only HTTPS downloads are allowed"

/-- The network response consumed by one download: a transport error, or a
status (`ok?`) plus the body bytes received. -/
inductive HttpResponse
  | err (msg : String)
  | resp (status_ok : Bool) (body : List Nat)

/-- Rust `fn download_with_sha256` (lib.rs:4591-4614): fetch the whole body,
hash it, compare digests case-insensitively, and only then write the
destination file.  Returns the result and the file writes performed. -/
def download_with_sha256 (sha256 : List Nat → List Char) (url : List Char)
    (expected_sha256 : List Char) (response : HttpResponse) :
    Except String Unit × List (List Nat) :=
  match ensure_https url with
  | .error e => (.error e, [])
  | .ok _ =>
    match response with
    | .err msg => (.error msg, [])
    | .resp status_ok body =>
      if !status_ok then (.error "Download failed: status", [])
      else
        let actual := sha256 body
        if strToLower actual ≠ strToLower expected_sha256 then
          (.error "SHA256 verification failed", [])
        else (.ok (), [body])

/-- Rust `fn download_with_sha256_progress` (lib.rs:4616-4657): the streaming
variant writes chunks to the destination while hashing, then compares the
digest; a mismatch is reported after the file was already written. -/
def download_with_sha256_progress (sha256 : List Nat → List Char)
    (url : List Char) (expected_sha256 : List Char) (response : HttpResponse) :
    Except String Unit × List (List Nat) :=
  match ensure_https url with
  | .error e => (.error e, [])
  | .ok _ =>
    match response with
    | .err msg => (.error msg, [])
    | .resp status_ok body =>
      if !status_ok then (.error "Download failed: status", [])
      else
        let actual := sha256 body
        if strToLower actual ≠ strToLower expected_sha256 then
          (.error "SHA256 verification failed", [body])
        else (.ok (), [body])

/-- Rust `fn download_with_hashes` (lib.rs:4659-4696): prefer SHA-256, fall back
to SHA-1, and fail outright when no hash is available; the destination is
written only after the digest comparison succeeds. -/
def download_with_hashes (sha256 sha1 : List Nat → List Char) (url : List Char)
    (expected_sha256 expected_sha1 : Option (List Char)) (response : HttpResponse) :
    Except String Unit × List (List Nat) :=
  match ensure_https url with
  | .error e => (.error e, [])
  | .ok _ =>
    match response with
    | .err msg => (.error msg, [])
    | .resp status_ok body =>
      if !status_ok then (.error "Download failed: status", [])
      else
        match expected_sha256 with
        | some expected =>
          if strToLower (sha256 body) ≠ strToLower expected then
            (.error "SHA256 verification failed", [])
          else (.ok (), [body])
        | none =>
          match expected_sha1 with
          | some expected =>
            if strToLower (sha1 body) ≠ strToLower expected then
              (.error "SHA1 verification failed", [])
            else (.ok (), [body])
          | none => (.error "No hash available for verification", [])

/-- Claim C8.  The streaming download-and-verify fetch rejects every
non-HTTPS URL outright; whenever the computed digest of the received byte
stream differs from the expected digest (hex compared case-insensitively)
it never reports success; and when the stream was actually downloaded
(HTTPS URL, success status) a digest mismatch returns exactly the
verification-failure error `SHA256 verification failed`. -/
theorem C8_fetch_verification (sha256 : List Nat → List Char) (url : List Char)
    (expected : List Char) (response : HttpResponse) :
    (¬ strStartsWith url "https://".data →
      download_with_sha256_progress sha256 url expected response =
        (.error "Only HTTPS downloads are allowed", [])) ∧
    (∀ status_ok body, response = .resp status_ok body →
      strToLower (sha256 body) ≠ strToLower expected →
      ∀ r, download_with_sha256_progress sha256 url expected response ≠ (.ok (), r)) ∧
    (∀ body, response = .resp true body →
      strStartsWith url "https://".data →
      strToLower (sha256 body) ≠ strToLower expected →
      download_with_sha256_progress sha256 url expected response =
        (.error "SHA256 verification failed", [body])) := by
  refine ⟨?_, ?_, ?_⟩
  · intro hurl
    unfold download_with_sha256_progress
    have hh : ensure_https url = .error "Only HTTPS downloads are allowed" := by
      unfold ensure_https
      rw [if_neg hurl]
    rw [hh]
  · rintro status_ok body rfl hne r
    unfold download_with_sha256_progress
    rcases hh : ensure_https url with e | u <;> dsimp only
    · simp
    · rcases status_ok with _ | _
      · simp
      · simp only [Bool.not_true, Bool.false_eq_true, if_false]
        rw [if_pos hne]
        simp
  · rintro body rfl hurl hne
    unfold download_with_sha256_progress
    have hh : ensure_https url = .ok () := by
      unfold ensure_https
      rw [if_pos hurl]
    rw [hh]
    dsimp only
    simp only [Bool.not_true, Bool.false_eq_true, if_false]
    rw [if_pos hne]

/-- Witness for `C8_fetch_verification`: an HTTP URL; then an HTTPS URL
with a success status and a digest that differs from the received body's,
where the call both never succeeds and returns exactly the
verification-failure error. -/
theorem C8_fetch_verification_witness :
    download_with_sha256_progress (fun _ => "AB".data) "http://x".data "ff".data
        (.resp true [1, 2]) =
      (.error "Only HTTPS downloads are allowed", []) ∧
    download_with_sha256_progress (fun _ => "AB".data) "https://x".data "ff".data
        (.resp true [1, 2]) ≠ (.ok (), [[1, 2]]) ∧
    download_with_sha256_progress (fun _ => "AB".data) "https://x".data "ff".data
        (.resp true [1, 2]) =
      (.error "SHA256 verification failed", [[1, 2]]) :=
  ⟨(C8_fetch_verification (fun _ => "AB".data) "http://x".data "ff".data
      (.resp true [1, 2])).1 (by decide),
   (C8_fetch_verification (fun _ => "AB".data) "https://x".data "ff".data
      (.resp true [1, 2])).2.1 true [1, 2] rfl (by decide) [[1, 2]],
   (C8_fetch_verification (fun _ => "AB".data) "https://x".data "ff".data
      (.resp true [1, 2])).2.2 [1, 2] rfl (by decide) (by decide)⟩

/-- Claim C10.  In the non-streaming helpers `download_with_sha256` and
`download_with_hashes`, the destination file is written only after the
digest check succeeds: on any verification failure, and when no hash is
available, no write to the destination happens at all. -/
theorem C10_no_write_before_verify (sha256 sha1 : List Nat → List Char)
    (url expected : List Char) (e256 e1 : Option (List Char))
    (response : HttpResponse) :
    ((download_with_sha256 sha256 url expected response).1.isOk = false →
      (download_with_sha256 sha256 url expected response).2 = []) ∧
    ((download_with_hashes sha256 sha1 url e256 e1 response).1.isOk = false →
      (download_with_hashes sha256 sha1 url e256 e1 response).2 = []) := by
  constructor
  · unfold download_with_sha256
    rcases hh : ensure_https url with e | u <;> dsimp only
    · intro
      rfl
    · rcases response with msg | ⟨status_ok, body⟩ <;> dsimp only
      · intro
        rfl
      · rcases status_ok with _ | _
        · intro
          rfl
        · simp only [Bool.not_true, Bool.false_eq_true, if_false]
          by_cases hm : strToLower (sha256 body) ≠ strToLower expected
          · rw [if_pos hm]
            intro
            rfl
          · rw [if_neg hm]
            intro h
            exact absurd h (by simp [Except.isOk, Except.toBool])
  · unfold download_with_hashes
    rcases hh : ensure_https url with e | u <;> dsimp only
    · intro
      rfl
    · rcases response with msg | ⟨status_ok, body⟩ <;> dsimp only
      · intro
        rfl
      · rcases status_ok with _ | _
        · intro
          rfl
        · simp only [Bool.not_true, Bool.false_eq_true, if_false]
          rcases e256 with _ | expected256 <;> dsimp only
          · rcases e1 with _ | expected1 <;> dsimp only
            · intro
              rfl
            · by_cases hm : strToLower (sha1 body) ≠ strToLower expected1
              · rw [if_pos hm]
                intro
                rfl
              · rw [if_neg hm]
                intro h
                exact absurd h (by simp [Except.isOk, Except.toBool])
          · by_cases hm : strToLower (sha256 body) ≠ strToLower expected256
            · rw [if_pos hm]
              intro
              rfl
            · rw [if_neg hm]
              intro h
              exact absurd h (by simp [Except.isOk, Except.toBool])

/-- Witness for `C10_no_write_before_verify` at a digest mismatch and a
hash-less call. -/
theorem C10_no_write_before_verify_witness :
    (download_with_sha256 (fun _ => "ab".data) "https://x".data "ff".data
        (.resp true [1])).2 = [] ∧
    (download_with_hashes (fun _ => "ab".data) (fun _ => "cd".data)
        "https://x".data none none (.resp true [1])).2 = [] :=
  ⟨(C10_no_write_before_verify (fun _ => "ab".data) (fun _ => "cd".data)
      "https://x".data "ff".data (some "ff".data) none (.resp true [1])).1 (by decide),
   (C10_no_write_before_verify (fun _ => "ab".data) (fun _ => "cd".data)
      "https://x".data "ff".data none none (.resp true [1])).2 (by decide)⟩

/-! ## Zip extraction and path traversal (lib.rs:3524-3547, 1254-1266)

Paths are modelled on Unix semantics: a path is a list of segment names,
an entry name is split at `/`.  `enclosed_name` models the zip crate's
`ZipFile::enclosed_name` (reject NUL, absolute paths, and any `..` that
would pop above the extraction root); `resolvePath` models the lexical
resolution the filesystem applies to the path handed to `File::create`. -/

inductive PathComp
  | root
  | cur
  | parent
  | normal (seg : List Char)
deriving DecidableEq, Repr

/-- Split an entry name into path components (Unix `Path::components`:
empty segments collapse, `.` is current-dir, a leading `/` is the root). -/
def parsePathComps (name : List Char) : List PathComp :=
  let segs := (splitOnChar '/' name).filter (fun s => !s.isEmpty)
  let comps := segs.map (fun s =>
    if s = ".".data then PathComp.cur
    else if s = "..".data then PathComp.parent
    else PathComp.normal s)
  if name.head? = some '/' then PathComp.root :: comps else comps

/-- The depth check of the zip crate's `enclosed_name`: reject the root,
and reject `..` when already at depth 0. -/
def enclosedCheck : List PathComp → Nat → Bool
  | [], _ => true
  | PathComp.root :: _, _ => false
  | PathComp.cur :: rest, d => enclosedCheck rest d
  | PathComp.parent :: rest, d => if d = 0 then false else enclosedCheck rest (d - 1)
  | PathComp.normal _ :: rest, d => enclosedCheck rest (d + 1)

/-- Rust `ZipFile::enclosed_name` (zip crate): `None` for names with NUL, an
absolute component, or traversal above the root. -/
def enclosed_name (name : List Char) : Option (List PathComp) :=
  if name.contains '\x00' then none
  else if enclosedCheck (parsePathComps name) 0 then some (parsePathComps name)
  else none

/-- Lexical resolution of components against a base directory (what the
OS does with the final path handed to `File::create`). -/
def resolvePath (base : List (List Char)) : List PathComp → List (List Char)
  | [] => base
  | PathComp.root :: rest => resolvePath [] rest
  | PathComp.cur :: rest => resolvePath base rest
  | PathComp.parent :: rest => resolvePath base.dropLast rest
  | PathComp.normal s :: rest => resolvePath (base ++ [s]) rest

/-- Is `p` inside (or equal to) the directory `base`? -/
def underRoot (base p : List (List Char)) : Bool := p.take base.length == base

/-- One archive entry: its stored name and its byte contents. -/
structure ZipEntryModel where
  name : List Char
  data : List Nat
deriving DecidableEq, Repr

/-- Rust `fn safe_extract_zip` (lib.rs:3524-3547): entries whose
`enclosed_name` is rejected are skipped (`continue`), directory entries
(name ending in `/`) only create directories; the returned list is the
sequence of file paths handed to `File::create`. -/
def safe_extract_zip (target_dir : List (List Char)) :
    List ZipEntryModel → List (List (List Char))
  | [] => []
  | e :: rest =>
    match enclosed_name e.name with
    | none => safe_extract_zip target_dir rest
    | some comps =>
      if e.name.getLast? = some '/' then safe_extract_zip target_dir rest
      else resolvePath target_dir comps :: safe_extract_zip target_dir rest

/-- The extraction loop of `fn restore_backup` (lib.rs:1254-1266): the
outpath is `server_dir.join(file.name())` with no `enclosed_name` check;
directory entries only create directories.  Returns the file paths handed
to `File::create`. -/
def restore_backup_extract (server_dir : List (List Char)) :
    List ZipEntryModel → List (List (List Char))
  | [] => []
  | e :: rest =>
    if e.name.getLast? = some '/' then restore_backup_extract server_dir rest
    else resolvePath server_dir (parsePathComps e.name) :: restore_backup_extract server_dir rest

theorem resolvePath_extends (comps : List PathComp) :
    ∀ (base extra : List (List Char)) (d : Nat), extra.length = d →
      enclosedCheck comps d = true →
      ∃ extra2, resolvePath (base ++ extra) comps = base ++ extra2 := by
  induction comps with
  | nil => exact fun base extra d _ _ => ⟨extra, rfl⟩
  | cons c rest ih =>
    intro base extra d hlen hchk
    rcases c with _ | _ | _ | s
    · exact absurd hchk (by simp [enclosedCheck])
    · exact ih base extra d hlen hchk
    · unfold enclosedCheck at hchk
      by_cases hd : d = 0
      · rw [if_pos hd] at hchk
        exact Bool.noConfusion hchk
      · rw [if_neg hd] at hchk
        have hextra : extra ≠ [] := by
          intro h
          subst h
          simp at hlen
          exact hd hlen.symm
        have : resolvePath ((base ++ extra).dropLast) rest =
            resolvePath (base ++ extra.dropLast) rest := by
          rw [List.dropLast_append_of_ne_nil _ hextra]
        unfold resolvePath
        rw [this]
        exact ih base extra.dropLast (d - 1)
          (by rw [List.length_dropLast, hlen]) hchk
    · unfold enclosedCheck at hchk
      unfold resolvePath
      have : (base ++ extra) ++ [s] = base ++ (extra ++ [s]) := by simp
      rw [this]
      exact ih base (extra ++ [s]) (d + 1) (by simp [hlen]) hchk

theorem underRoot_append (base extra : List (List Char)) :
    underRoot base (base ++ extra) = true := by
  unfold underRoot
  rw [List.take_left]
  exact beq_self_eq_true base

/-- Claim C2, theorem.  The import/staging extraction path
(`safe_extract_zip`) never hands `File::create` a path outside the target
directory — every entry that would escape is skipped by the
`enclosed_name` guard.  The backup-restore path has no such guard: on the
failing input (an archive entry named `../evil.txt`), `restore_backup`
creates a file at `<server_dir>/../evil.txt`, outside the server
directory. -/
theorem C2_extraction_traversal :
    (∀ (target_dir : List (List Char)) (entries : List ZipEntryModel),
      ∀ p ∈ safe_extract_zip target_dir entries, underRoot target_dir p = true) ∧
    restore_backup_extract ["srv".data] [⟨"../evil.txt".data, [1, 2]⟩] =
      [["evil.txt".data]] ∧
    underRoot ["srv".data] ["evil.txt".data] = false := by
  refine ⟨?_, by decide, by decide⟩
  intro target_dir entries
  induction entries with
  | nil => simp [safe_extract_zip]
  | cons e rest ih =>
    intro p hp
    unfold safe_extract_zip at hp
    rcases hen : enclosed_name e.name with _ | comps
    · rw [hen] at hp
      exact ih p hp
    · rw [hen] at hp
      dsimp only at hp
      split at hp
      · exact ih p hp
      · rcases List.mem_cons.mp hp with rfl | hp2
        · have hchk : enclosedCheck comps 0 = true := by
            unfold enclosed_name at hen
            split at hen
            · exact Option.noConfusion hen
            · split at hen
              · next h => injection hen with h2; rw [← h2]; assumption
              · exact Option.noConfusion hen
          obtain ⟨extra2, hres⟩ :=
            resolvePath_extends comps target_dir [] 0 rfl hchk
          rw [List.append_nil] at hres
          rw [hres]
          exact underRoot_append target_dir extra2
        · exact ih p hp2

/-- Witness for `C2_extraction_traversal`'s universally quantified part:
a mixed archive extracted by the guarded path writes only under the
target. -/
theorem C2_extraction_traversal_witness :
    safe_extract_zip ["srv".data]
        [⟨"../evil.txt".data, [1]⟩, ⟨"world/level.dat".data, [2]⟩] =
      [["srv".data, "world".data, "level.dat".data]] ∧
    underRoot ["srv".data] ["srv".data, "world".data, "level.dat".data] = true :=
  ⟨by decide,
   C2_extraction_traversal.1 ["srv".data]
     [⟨"../evil.txt".data, [1]⟩, ⟨"world/level.dat".data, [2]⟩]
     ["srv".data, "world".data, "level.dat".data] (by decide)⟩

/-! ## World archiving and backup entries (lib.rs:264-270, 4245-4390) -/

/-- One file inside a world folder: its path relative to the folder root
and its byte contents (`entry.metadata().len()` is `data.length`). -/
structure WorldFile where
  rel_path : List Char
  data : List Nat
deriving DecidableEq, Repr

/-- A world folder on disk: its folder name and its files. -/
structure WorldRoot where
  folder_name : List Char
  files : List WorldFile
deriving DecidableEq, Repr

/-- Rust `struct BackupEntry` (lib.rs:264-270). -/
structure BackupEntry where
  id : List Char
  created_at : List Char
  size_bytes : Nat
  path : List Char
deriving DecidableEq, Repr

/-- Rust `fn collect_world_paths` (lib.rs:4245-4254): the primary `world`
folder plus the requested secondary dimensions, keeping only the folders
that exist (`none` = absent). -/
def collect_world_paths (world world_nether world_the_end : Option WorldRoot)
    (include_nether include_end : Bool) : List WorldRoot :=
  (match world with | some w => [w] | none => []) ++
  (if include_nether then (match world_nether with | some w => [w] | none => []) else []) ++
  (if include_end then (match world_the_end with | some w => [w] | none => []) else [])

/-- Rust `fn zip_world_to_path` (lib.rs:4256-4322): fail when no world folder
exists; otherwise `total_bytes` is the sum of the source files' sizes
(computed from metadata before anything is written), each file is stored
in the archive under `folder_name/relative_path`, and `Ok(total_bytes)`
is returned.  The model also returns the entries handed to the
`ZipWriter`. -/
def zip_world_to_path (roots : List WorldRoot) :
    Except String (Nat × List ZipEntryModel) :=
  if roots = [] then .error "World folder not found"
  else
    let files := (roots.map (fun root => root.files.map (fun f => (root, f)))).flatten
    let total_bytes := (files.map (fun rf => rf.2.data.length)).sum
    let entries := files.map
      (fun rf => ZipEntryModel.mk (rf.1.folder_name ++ '/' :: rf.2.rel_path) rf.2.data)
    .ok (total_bytes, entries)

/-- Rust `fn perform_backup` (lib.rs:4324-4390): archive the world, then build
a `BackupEntry` whose `size_bytes` is `zip_world_to_path`'s return value,
and append it to the loaded manifest (`load → push → save`).  The
best-effort autosave console commands, the meta update and the log line do
not affect the entry or the manifest.  Returns the entry, the saved
manifest and the archive contents. -/
def perform_backup (id created_at path : List Char) (roots : List WorldRoot)
    (manifest : List BackupEntry) :
    Except String (BackupEntry × List BackupEntry × List ZipEntryModel) :=
  match zip_world_to_path roots with
  | .error e => .error e
  | .ok (size_bytes, entries) =>
    let entry : BackupEntry := ⟨id, created_at, size_bytes, path⟩
    .ok (entry, manifest ++ [entry], entries)

/-- The §8 scenario: a 3-file world totalling 900 bytes, plus two existing
but empty secondary-dimension folders. -/
def scenarioRoots : List WorldRoot :=
  collect_world_paths
    (some ⟨"world".data,
      [⟨"level.dat".data, List.replicate 300 7⟩,
       ⟨"region/r.0.0.mca".data, List.replicate 300 8⟩,
       ⟨"session.lock".data, List.replicate 300 9⟩]⟩)
    (some ⟨"world_nether".data, []⟩)
    (some ⟨"world_the_end".data, []⟩)
    true true

set_option maxRecDepth 40000 in
/-- Claim C9.  Every `BackupEntry` produced by a successful
`perform_backup` records in `size_bytes` the total number of bytes of the
files stored in the backing archive (the world files' sizes, summed before
archiving), and the new manifest is the old one with exactly the new entry
appended.  In the §8 scenario (900-byte 3-file world, two empty secondary
dimensions, empty manifest, `includeSecondary = true`) the entry has
`size_bytes = 900` and the manifest has length 1. -/
theorem C9_backup_entry_size :
    (∀ (id created_at path : List Char) (roots : List WorldRoot)
      (manifest : List BackupEntry) (entry : BackupEntry)
      (manifest2 : List BackupEntry) (archive : List ZipEntryModel),
      perform_backup id created_at path roots manifest =
        .ok (entry, manifest2, archive) →
      entry.size_bytes = (archive.map (fun e => e.data.length)).sum ∧
      manifest2 = manifest ++ [entry] ∧ entry.id = id) ∧
    ((perform_backup "20240101_000000".data "2024-01-01T00:00:00Z".data
        "/backups/A/20240101_000000.zip".data scenarioRoots []).toOption.map
      (fun r => (r.1.size_bytes, (r.2.1).length))) = some (900, 1) := by
  constructor
  · intro id created_at path roots manifest entry manifest2 archive h
    unfold perform_backup at h
    rcases hz : zip_world_to_path roots with e | ⟨size_bytes, entries⟩
    · rw [hz] at h
      exact Except.noConfusion h
    · rw [hz] at h
      dsimp only at h
      injection h with h
      injection h with h1 h2
      injection h2 with h2 h3
      subst h1
      subst h2
      subst h3
      refine ⟨?_, rfl, rfl⟩
      unfold zip_world_to_path at hz
      split at hz
      · exact Except.noConfusion hz
      · dsimp only at hz
        injection hz with hz
        injection hz with hz1 hz2
        subst hz2
        rw [← hz1]
        rw [List.map_map]
        rfl
  · rfl

/-- The archive contents `zip_world_to_path` produces in the §8 scenario. -/
def scenarioArchive : List ZipEntryModel :=
  [⟨"world/level.dat".data, List.replicate 300 7⟩,
   ⟨"world/region/r.0.0.mca".data, List.replicate 300 8⟩,
   ⟨"world/session.lock".data, List.replicate 300 9⟩]

/-- The backup entry `perform_backup` produces in the §8 scenario. -/
def scenarioEntry : BackupEntry :=
  ⟨"20240101_000000".data, "2024-01-01T00:00:00Z".data, 900,
   "/backups/A/20240101_000000.zip".data⟩

set_option maxRecDepth 40000 in
/-- Witness for `C9_backup_entry_size` at the §8 scenario. -/
theorem C9_backup_entry_size_witness :
    scenarioEntry.size_bytes =
      (scenarioArchive.map (fun e => e.data.length)).sum ∧
    ([] ++ [scenarioEntry]).length = 1 := by
  have h := C9_backup_entry_size.1 "20240101_000000".data
    "2024-01-01T00:00:00Z".data "/backups/A/20240101_000000.zip".data
    scenarioRoots [] scenarioEntry [scenarioEntry] scenarioArchive rfl
  exact ⟨h.1, rfl⟩
